import Mathlib

/-!
# Mailbox scheduling core of `gam` (actor/boundedmailbox.go, actor/unboundedbatchingmailbox.go)

A shallow embedding of the two mailbox variants.  The shared memory of one mailbox is a
record `Mailbox`; every call in flight (a `PostUserMessage` / `PostSystemMessage` call, or a
`processMessages` goroutine) is an *agent* standing at a program point `Pc`.  `exec` performs
the next atomic action of one agent, `next` is the interleaving step of the whole system and
`runHead` is the schedule that always runs the first agent (the sequential execution of a
drain task when nobody posts).

Modelling choices:

* one atomic action is one operation on shared memory (an atomic store, swap or
  compare-and-swap, one queue operation, one handler call, one yield) together with the local
  control flow that follows it up to the next such operation;
* the compare-and-swap of `schedule` and the `go` statement it guards are one action: the
  launched goroutine is an agent at `Pc.entry` from the moment the swap succeeds;
* `throughput` and `batchSize` are never written after construction and are carried by
  `Config`; the bodies of `schedule` are the same text in both files and are embedded once;
* the queues are lists, oldest message first; a blocking queue operation is an action that is
  not enabled;
* a handler is known to the mailbox only by whether its call returns or panics.
-/

namespace Gam

/-- Message payloads are opaque to the mailbox (`interface{}` / `SystemMessage`); a payload is
identified by a natural number. -/
abbrev Msg := Nat

/-- Modelled from the spec: the constants `MailboxIdle` and `MailboxRunning` are declared
outside src/; the spec (section 3) gives the scheduler status exactly these two values. -/
inductive SchedulerStatus
  | MailboxIdle
  | MailboxRunning
  deriving DecidableEq

/-- Modelled from the spec: the constants `MailboxHasNoMessages` and `MailboxHasMoreMessages`
are declared outside src/; the spec (section 3) gives the pending flag exactly these two
values. -/
inductive PendingFlag
  | MailboxHasNoMessages
  | MailboxHasMoreMessages
  deriving DecidableEq

open SchedulerStatus PendingFlag

/-- The argument of `userInvoke`: one message (bounded mailbox, line 59) or the slice returned
by `PopMany` (batching mailbox, line 57). -/
inductive UserArg
  | one (m : Msg)
  | many (ms : List Msg)
  deriving DecidableEq

/-- Observable actions of drain tasks, in the order in which they happen. -/
inductive Event
  | systemInvoke (m : Msg)
  | userInvoke (a : UserArg)
  | Gosched
  deriving DecidableEq

/-- The fields of `BoundedMailbox` / `UnboundedBatchingMailbox` that are written after
construction.  A handler binding is `none` while `RegisterHandlers` has not been called (a nil
func); a bound handler maps its argument to `true` when the call returns and to `false` when it
panics. -/
structure Mailbox where
  userMailbox : List Msg
  systemMailbox : List Msg
  schedulerStatus : SchedulerStatus
  hasMoreMessages : PendingFlag
  userInvoke : Option (UserArg → Bool)
  systemInvoke : Option (Msg → Bool)

/-- The two variants with what is fixed at construction: `throughput` and the capacities of
the two ring buffers; or `batchSize` and the `PopMany` operation of the queue the mailbox is
built on (`popMany k q` gives the batch, the remaining queue and the flag). -/
inductive Config
  | bounded (throughput : Int) (userCap systemCap : Nat)
  | batching (batchSize : Int) (popMany : Int → List Msg → List Msg × List Msg × Bool)

/-- The factory `NewBoundedMailbox(throughput, size)`; `ringCapacity` is the capacity the ring
buffer library gives a buffer built by `NewRingBuffer(n)` (library code, a parameter here);
`uint64(size)` is the conversion of line 79 and `100` the constant of line 80. -/
def NewBoundedMailbox (ringCapacity : Nat → Nat) (throughput size : Int) : Config :=
  Config.bounded throughput (ringCapacity (size % 2 ^ 64).toNat) (ringCapacity 100)

/-- The factory `NewUnboundedBatchingMailbox(batchSize)`; `popMany` is the `PopMany` operation
of the queue built by `queue.New()` (code outside src/, a parameter here). -/
def NewUnboundedBatchingMailbox
    (popMany : Int → List Msg → List Msg × List Msg × Bool) (batchSize : Int) : Config :=
  Config.batching batchSize popMany

/-- The mailbox both factories allocate: empty queues, `MailboxIdle`, `MailboxHasNoMessages`,
handlers not yet bound. -/
def freshMailbox : Mailbox :=
  { userMailbox := [], systemMailbox := [], schedulerStatus := MailboxIdle,
    hasMoreMessages := MailboxHasNoMessages, userInvoke := none, systemInvoke := none }

/-- The method `RegisterHandlers`: lines 92-95 (bounded), 90-93 (batching). -/
def RegisterHandlers (mb : Mailbox) (userInvoke : UserArg → Bool) (systemInvoke : Msg → Bool) :
    Mailbox :=
  { mb with userInvoke := some userInvoke, systemInvoke := some systemInvoke }

/-- Program points.  An agent standing at a point has not yet performed the action named by
it.  Line numbers are those of boundedmailbox.go (B) and unboundedbatchingmailbox.go (U). -/
inductive Pc
  -- userMailbox.Put(message) B21, userMailbox.Push(message) U20.
  | putUser (m : Msg)
  -- systemMailbox.Put(message) B26, systemMailbox.Push(message) U25.
  | putSystem (m : Msg)
  -- schedule called from a post: the store of B31 / U30.
  | postStore
  -- schedule called from a post: the compare-and-swap and go of B32-33 / U31-32.
  | postCas
  -- A launched drain task before the store of B47 / U46.
  | entry
  -- systemMailbox.Len() > 0, B53, with loop counter i.
  | sysLen (i : Nat)
  -- systemMailbox.Get(), B54.
  | sysGet (i : Nat)
  -- mailbox.systemInvoke(sys), B56.
  | sysInvoke (i : Nat) (m : Msg)
  -- userMailbox.Len() > 0, B57.
  | usrLen (i : Nat)
  -- userMailbox.Get(), B58.
  | usrGet (i : Nat)
  -- mailbox.userInvoke(userMsg), B59.
  | usrInvoke (i : Nat) (m : Msg)
  -- runtime.Gosched(), B65, with the value of done.
  | gosched (done : Bool)
  -- systemMailbox.Pop(), U51.
  | sysPop
  -- mailbox.systemInvoke(first), U54.
  | batchSysInvoke (m : Msg)
  -- userMailbox.PopMany(batchSize), U55.
  | usrPopMany
  -- mailbox.userInvoke(userMsg), U57.
  | batchUsrInvoke (ms : List Msg)
  -- runtime.Gosched(), U62.
  | batchGosched
  -- The store of MailboxIdle, B69 / U66.
  | storeIdle
  -- The swap of the pending flag, B71 / U68.
  | swapFlag
  -- schedule called from B72 / U69: the store of the flag.
  | exitStore
  -- schedule called from B72 / U69: the compare-and-swap and go.
  | exitCas
  deriving DecidableEq

/-- A fault that ends a goroutine: a call of a nil func, or a panic raised by a handler. -/
inductive Fault
  | nilHandler
  | handlerPanic
  deriving DecidableEq

/-- Result of one atomic action: the new shared memory, the agents that replace the acting
agent (its continuation, a launched drain task, or nothing when the call returns) and the
events it produced; or the agent cannot move (`blocked`: a full ring buffer on `Put`, an empty
one on `Get`, a program point of the other variant); or the action faults. -/
inductive Outcome
  | ok (mb : Mailbox) (next : List Pc) (events : List Event)
  | blocked
  | fault (f : Fault)

/-- Calling a handler binding: `none` when the call returns, otherwise the fault. -/
def invoke {α : Type} (h : Option (α → Bool)) (a : α) : Option Fault :=
  match h with
  | none => some Fault.nilHandler
  | some f => if f a then none else some Fault.handlerPanic

/-- Modelled from the spec: `Pop` of the repository's queue package (not under src/): removes
the oldest item, reports `false` on an empty queue. -/
def Pop (q : List Msg) : Option (Msg × List Msg) :=
  match q with
  | [] => none
  | m :: rest => some (m, rest)

/-- Modelled from the spec: `PopMany` of the repository's queue package (not under src/):
removes the first `min k length` items and reports `true` iff at least one was removed.  The
result is the batch, the remaining queue and the flag.  Nothing is known about a call with a
count below 1; every theorem that runs this `PopMany` assumes a batch size of at least 1. -/
def PopMany (k : Int) (q : List Msg) : List Msg × List Msg × Bool :=
  (q.take (min k.toNat q.length), q.drop (min k.toNat q.length),
    decide (0 < min k.toNat q.length))

/-- First statement of `schedule` (B31 / U30): `atomic.StoreInt32(&hasMoreMessages,
MailboxHasMoreMessages)`. -/
def scheduleStore (mb : Mailbox) : Mailbox :=
  { mb with hasMoreMessages := MailboxHasMoreMessages }

/-- Second statement of `schedule` (B32-34 / U31-33): the compare-and-swap from `MailboxIdle`
to `MailboxRunning` and, when it succeeds, `go mailbox.processMessages()`.  The second
component lists the launched drain tasks. -/
def scheduleCas (mb : Mailbox) : Mailbox × List Pc :=
  if mb.schedulerStatus = MailboxIdle then
    ({ mb with schedulerStatus := MailboxRunning }, [Pc.entry])
  else (mb, [])

/-- The method `schedule` run without interruption. -/
def schedule (mb : Mailbox) : Mailbox × List Pc :=
  scheduleCas (scheduleStore mb)

/-- Head of the inner loop `for i := 0; i < mailbox.throughput; i++` (B52): the next shared
action is the length check of B53 when `i < throughput`, and the yield of B65 otherwise (with
`done` still false). -/
def innerHead (throughput : Int) (i : Nat) : Pc :=
  if (i : Int) < throughput then Pc.sysLen i else Pc.gosched false

/-- First shared action of a drain task after the store of B47 / U46. -/
def loopStart : Config → Pc
  | Config.bounded t _ _ => innerHead t 0
  | Config.batching _ _ => Pc.sysPop

/-- The next atomic action of the agent standing at `pc`, on shared memory `mb`. -/
def exec (cfg : Config) (pc : Pc) (mb : Mailbox) : Outcome :=
  match pc with
  | Pc.putUser m =>
    match cfg with
    | Config.bounded _ cap _ =>
      if mb.userMailbox.length < cap then
        Outcome.ok { mb with userMailbox := mb.userMailbox ++ [m] } [Pc.postStore] []
      else Outcome.blocked
    | Config.batching _ _ =>
      Outcome.ok { mb with userMailbox := mb.userMailbox ++ [m] } [Pc.postStore] []
  | Pc.putSystem m =>
    match cfg with
    | Config.bounded _ _ cap =>
      if mb.systemMailbox.length < cap then
        Outcome.ok { mb with systemMailbox := mb.systemMailbox ++ [m] } [Pc.postStore] []
      else Outcome.blocked
    | Config.batching _ _ =>
      Outcome.ok { mb with systemMailbox := mb.systemMailbox ++ [m] } [Pc.postStore] []
  | Pc.postStore => Outcome.ok (scheduleStore mb) [Pc.postCas] []
  | Pc.postCas => Outcome.ok (scheduleCas mb).1 (scheduleCas mb).2 []
  | Pc.entry =>
    Outcome.ok { mb with hasMoreMessages := MailboxHasNoMessages } [loopStart cfg] []
  | Pc.sysLen i =>
    match cfg with
    | Config.bounded _ _ _ =>
      Outcome.ok mb [if 0 < mb.systemMailbox.length then Pc.sysGet i else Pc.usrLen i] []
    | Config.batching _ _ => Outcome.blocked
  | Pc.sysGet i =>
    match cfg with
    | Config.bounded _ _ _ =>
      match mb.systemMailbox with
      | [] => Outcome.blocked
      | m :: rest => Outcome.ok { mb with systemMailbox := rest } [Pc.sysInvoke i m] []
    | Config.batching _ _ => Outcome.blocked
  | Pc.sysInvoke i m =>
    match cfg with
    | Config.bounded t _ _ =>
      match invoke mb.systemInvoke m with
      | some f => Outcome.fault f
      | none => Outcome.ok mb [innerHead t (i + 1)] [Event.systemInvoke m]
    | Config.batching _ _ => Outcome.blocked
  | Pc.usrLen i =>
    match cfg with
    | Config.bounded _ _ _ =>
      Outcome.ok mb [if 0 < mb.userMailbox.length then Pc.usrGet i else Pc.gosched true] []
    | Config.batching _ _ => Outcome.blocked
  | Pc.usrGet i =>
    match cfg with
    | Config.bounded _ _ _ =>
      match mb.userMailbox with
      | [] => Outcome.blocked
      | m :: rest => Outcome.ok { mb with userMailbox := rest } [Pc.usrInvoke i m] []
    | Config.batching _ _ => Outcome.blocked
  | Pc.usrInvoke i m =>
    match cfg with
    | Config.bounded t _ _ =>
      match invoke mb.userInvoke (UserArg.one m) with
      | some f => Outcome.fault f
      | none => Outcome.ok mb [innerHead t (i + 1)] [Event.userInvoke (UserArg.one m)]
    | Config.batching _ _ => Outcome.blocked
  | Pc.gosched done =>
    match cfg with
    | Config.bounded t _ _ =>
      Outcome.ok mb [if done then Pc.storeIdle else innerHead t 0] [Event.Gosched]
    | Config.batching _ _ => Outcome.blocked
  | Pc.sysPop =>
    match cfg with
    | Config.bounded _ _ _ => Outcome.blocked
    | Config.batching _ _ =>
      match Pop mb.systemMailbox with
      | some (m, rest) => Outcome.ok { mb with systemMailbox := rest } [Pc.batchSysInvoke m] []
      | none => Outcome.ok mb [Pc.usrPopMany] []
  | Pc.batchSysInvoke m =>
    match cfg with
    | Config.bounded _ _ _ => Outcome.blocked
    | Config.batching _ _ =>
      match invoke mb.systemInvoke m with
      | some f => Outcome.fault f
      | none => Outcome.ok mb [Pc.batchGosched] [Event.systemInvoke m]
  | Pc.usrPopMany =>
    match cfg with
    | Config.bounded _ _ _ => Outcome.blocked
    | Config.batching b popMany =>
      if (popMany b mb.userMailbox).2.2 then
        Outcome.ok { mb with userMailbox := (popMany b mb.userMailbox).2.1 }
          [Pc.batchUsrInvoke (popMany b mb.userMailbox).1] []
      else Outcome.ok mb [Pc.storeIdle] []
  | Pc.batchUsrInvoke ms =>
    match cfg with
    | Config.bounded _ _ _ => Outcome.blocked
    | Config.batching _ _ =>
      match invoke mb.userInvoke (UserArg.many ms) with
      | some f => Outcome.fault f
      | none => Outcome.ok mb [Pc.batchGosched] [Event.userInvoke (UserArg.many ms)]
  | Pc.batchGosched =>
    match cfg with
    | Config.bounded _ _ _ => Outcome.blocked
    | Config.batching _ _ => Outcome.ok mb [Pc.sysPop] [Event.Gosched]
  | Pc.storeIdle => Outcome.ok { mb with schedulerStatus := MailboxIdle } [Pc.swapFlag] []
  | Pc.swapFlag =>
    Outcome.ok { mb with hasMoreMessages := MailboxHasNoMessages }
      (if mb.hasMoreMessages = MailboxHasMoreMessages then [Pc.exitStore] else []) []
  | Pc.exitStore => Outcome.ok (scheduleStore mb) [Pc.exitCas] []
  | Pc.exitCas => Outcome.ok (scheduleCas mb).1 (scheduleCas mb).2 []

/-- State of the interleaving model: the shared memory, the agents in flight and the events so
far. -/
structure State where
  mb : Mailbox
  agents : List Pc
  trace : List Event

/-- State right after the factory returned: nobody has called anything. -/
def initial : State :=
  { mb := freshMailbox, agents := [], trace := [] }

/-- Moves of the interleaving model: a caller enters one of the public methods, or an agent in
flight performs its next atomic action. -/
inductive Action
  | PostUserMessage (m : Msg)
  | PostSystemMessage (m : Msg)
  | RegisterHandlers (userInvoke : UserArg → Bool) (systemInvoke : Msg → Bool)
  | run (pc : Pc)

/-- One step of the interleaving model; `none` when the move is not possible. -/
def next (cfg : Config) (s : State) : Action → Option State
  | Action.PostUserMessage m => some { s with agents := Pc.putUser m :: s.agents }
  | Action.PostSystemMessage m => some { s with agents := Pc.putSystem m :: s.agents }
  | Action.RegisterHandlers hu hs => some { s with mb := RegisterHandlers s.mb hu hs }
  | Action.run pc =>
    if pc ∈ s.agents then
      match exec cfg pc s.mb with
      | Outcome.ok mb nxt evs =>
        some { mb := mb, agents := nxt ++ s.agents.erase pc, trace := s.trace ++ evs }
      | _ => none
    else none

/-- States the interleaving model reaches from a given state. -/
inductive ReachableFrom (cfg : Config) (s0 : State) : State → Prop
  | refl : ReachableFrom cfg s0 s0
  | step {s s' : State} (a : Action) :
      ReachableFrom cfg s0 s → next cfg s a = some s' → ReachableFrom cfg s0 s'

/-- States reachable from the factory state. -/
def Reachable (cfg : Config) (s : State) : Prop :=
  ReachableFrom cfg initial s

/-- The schedule that always runs the first agent, for `n` steps; it stops when no agent is
left or the first agent cannot move. -/
def runHead (cfg : Config) : Nat → State → State
  | 0, s => s
  | n + 1, s =>
    match s.agents with
    | [] => s
    | pc :: rest =>
      match exec cfg pc s.mb with
      | Outcome.ok mb nxt evs =>
        runHead cfg n { mb := mb, agents := nxt ++ rest, trace := s.trace ++ evs }
      | _ => s

/-- A drain task just launched on mailbox `mb`: the state in which `processMessages` starts. -/
def drainStart (mb : Mailbox) : State :=
  { mb := mb, agents := [Pc.entry], trace := [] }

/-- Program points of a drain task that holds the `MailboxRunning` status: from its launch up
to, and not including, its store of `MailboxIdle`. -/
def own : Pc → Bool
  | Pc.entry => true
  | Pc.sysLen _ => true
  | Pc.sysGet _ => true
  | Pc.sysInvoke _ _ => true
  | Pc.usrLen _ => true
  | Pc.usrGet _ => true
  | Pc.usrInvoke _ _ => true
  | Pc.gosched _ => true
  | Pc.sysPop => true
  | Pc.batchSysInvoke _ => true
  | Pc.usrPopMany => true
  | Pc.batchUsrInvoke _ => true
  | Pc.batchGosched => true
  | Pc.storeIdle => true
  | _ => false

/-- The number 1 when the status is `MailboxRunning`, 0 when it is `MailboxIdle`. -/
def running (mb : Mailbox) : Nat :=
  if mb.schedulerStatus = MailboxRunning then 1 else 0

/-- Invariant behind mutual exclusion: the drain tasks holding the status are as many as the
status says, one for `MailboxRunning` and none for `MailboxIdle`. -/
def MutexInv (s : State) : Prop :=
  s.agents.countP own = running s.mb

/-- Some message is queued. -/
def Pending (mb : Mailbox) : Prop :=
  mb.systemMailbox ≠ [] ∨ mb.userMailbox ≠ []

/-- An agent at `pc` is bound to look at the queues again, or to make somebody do so: it is
about to run `schedule`'s store; it is at `schedule`'s compare-and-swap with the status idle;
it is a drain task that will reach the empty checks from their start; it is a drain task past
the system check with the user channel non-empty; or it is a drain task that will reach the
swap of the pending flag while the flag says `MailboxHasMoreMessages`. -/
def Covers (mb : Mailbox) : Pc → Prop
  | Pc.putUser _ => False
  | Pc.putSystem _ => False
  | Pc.postStore => True
  | Pc.postCas => mb.schedulerStatus = MailboxIdle
  | Pc.entry => True
  | Pc.sysLen _ => True
  | Pc.sysGet _ => True
  | Pc.sysInvoke _ _ => True
  | Pc.usrLen _ => mb.userMailbox ≠ [] ∨ mb.hasMoreMessages = MailboxHasMoreMessages
  | Pc.usrGet _ => True
  | Pc.usrInvoke _ _ => True
  | Pc.gosched done => done = false ∨ mb.hasMoreMessages = MailboxHasMoreMessages
  | Pc.sysPop => True
  | Pc.batchSysInvoke _ => True
  | Pc.usrPopMany => mb.userMailbox ≠ [] ∨ mb.hasMoreMessages = MailboxHasMoreMessages
  | Pc.batchUsrInvoke _ => True
  | Pc.batchGosched => True
  | Pc.storeIdle => mb.hasMoreMessages = MailboxHasMoreMessages
  | Pc.swapFlag => mb.hasMoreMessages = MailboxHasMoreMessages
  | Pc.exitStore => True
  | Pc.exitCas => mb.schedulerStatus = MailboxIdle

/-- The contract `processMessages` relies on when it takes a `false` from `PopMany` as the end
of the work (U55-60): called with the configured batch size, `PopMany` reports `false` only on
an empty queue.  The bounded variant needs nothing of the kind. -/
def Config.Valid : Config → Prop
  | Config.bounded _ _ _ => True
  | Config.batching b popMany => ∀ q, (popMany b q).2.2 = false → q = []

/-- Invariant behind the absence of stranded messages: while a message is queued, some agent
in flight covers it. -/
def CoverInv (s : State) : Prop :=
  Pending s.mb → ∃ pc ∈ s.agents, Covers s.mb pc

/-- Handler invocations a drain task makes for the system messages `S`, one by one. -/
def sysEvents (S : List Msg) : List Event :=
  S.map Event.systemInvoke

/-- Handler invocations the bounded drain task makes for the user messages `U`, one by one. -/
def usrEvents (U : List Msg) : List Event :=
  U.map (fun m => Event.userInvoke (UserArg.one m))

/-- The events `es` with a yield after every `t`-th one since the last yield (`i` events have
happened since then) and a final yield. -/
def yieldTrace (t : Nat) : Nat → List Event → List Event
  | _, [] => [Event.Gosched]
  | i, e :: rest =>
    e :: (if i + 1 < t then yieldTrace t (i + 1) rest else Event.Gosched :: yieldTrace t 0 rest)

/-- Tells handler invocations from yields. -/
def Event.isInvoke : Event → Bool
  | Event.Gosched => false
  | _ => true

/-- The handler invocations of a trace, in order. -/
def invocations (tr : List Event) : List Event :=
  tr.filter Event.isInvoke

/-- Number of `runtime.Gosched` calls in a trace. -/
def yields (tr : List Event) : Nat :=
  tr.count Event.Gosched

/-- Numbers of handler invocations in the stretches between yields: `cur` invocations have
happened since the last yield. -/
def bursts : Nat → List Event → List Nat
  | cur, [] => [cur]
  | cur, Event.Gosched :: rest => cur :: bursts 0 rest
  | cur, _ :: rest => bursts (cur + 1) rest

/-- Events of the batching drain task for the system messages `S`: each is invoked singly and
followed by the yield of line 62. -/
def sysBatchTrace : List Msg → List Event
  | [] => []
  | m :: rest => Event.systemInvoke m :: Event.Gosched :: sysBatchTrace rest

/-- Events of the batching drain task for the batches `bs`: one `userInvoke` per batch, each
followed by the yield of line 62. -/
def batchTrace : List (List Msg) → List Event
  | [] => []
  | c :: rest => Event.userInvoke (UserArg.many c) :: Event.Gosched :: batchTrace rest

/-- The `userInvoke` calls of the batching drain task for the batches `bs`. -/
def batchEvents (bs : List (List Msg)) : List Event :=
  bs.map (fun c => Event.userInvoke (UserArg.many c))

/-- A drain task between the store of B47 / U46 and the store of `MailboxIdle`: it is inside
the message loop, or has left it and not yet stored `MailboxIdle`. -/
def inLoop (pc : Pc) : Bool :=
  own pc && decide (pc ≠ Pc.entry)

/-- A drain task standing at a call of `systemInvoke` or `userInvoke`. -/
def invoking : Pc → Bool
  | Pc.sysInvoke _ _ => true
  | Pc.usrInvoke _ _ => true
  | Pc.batchSysInvoke _ => true
  | Pc.batchUsrInvoke _ => true
  | _ => false

/-- Runs a list of moves of the interleaving model, in order. -/
def runActions (cfg : Config) : List Action → State → Option State
  | [], s => some s
  | a :: rest, s =>
    match next cfg s a with
    | some s' => runActions cfg rest s'
    | none => none

/-- Program points a bounded mailbox with non-positive throughput can reach: those of post
calls, the entry of a drain task, and the yield with `done` false. -/
def stalled : Pc → Bool
  | Pc.putUser _ => true
  | Pc.putSystem _ => true
  | Pc.postStore => true
  | Pc.postCas => true
  | Pc.entry => true
  | Pc.gosched done => !done
  | _ => false

/-- Invariant of a bounded mailbox with non-positive throughput: every agent stands at a
stalled point and no handler has been invoked. -/
def StallInv (s : State) : Prop :=
  (∀ pc ∈ s.agents, stalled pc = true) ∧ invocations s.trace = []

/-! ## Invariants of the interleaving model -/

theorem own_innerHead (t : Int) (i : Nat) : own (innerHead t i) = true := by
  unfold innerHead; split <;> rfl

theorem own_loopStart (cfg : Config) : own (loopStart cfg) = true := by
  cases cfg
  · exact own_innerHead _ _
  · rfl

theorem exec_own {cfg : Config} {pc : Pc} {mb mb' : Mailbox} {nxt : List Pc} {evs : List Event}
    (h : exec cfg pc mb = Outcome.ok mb' nxt evs)
    (hrun : own pc = true → mb.schedulerStatus = MailboxRunning) :
    nxt.countP own + running mb = (if own pc = true then 1 else 0) + running mb' := by
  have hs : mb.schedulerStatus = MailboxIdle ∨ mb.schedulerStatus = MailboxRunning := by
    cases mb.schedulerStatus <;> simp
  cases pc <;> cases cfg <;> simp only [exec] at h
  all_goals (try split at h)
  all_goals (try cases h)
  all_goals (rcases hs with hs | hs)
  all_goals (try simp only [List.countP_cons, List.countP_nil, own_innerHead, own_loopStart])
  all_goals simp_all [own, running, scheduleStore, scheduleCas]

theorem countP_erase_add (p : Pc → Bool) {l : List Pc} {a : Pc} (h : a ∈ l) :
    l.countP p = (if p a = true then 1 else 0) + (l.erase a).countP p := by
  have hp := (List.perm_cons_erase h).countP_eq p
  rw [hp, List.countP_cons]
  omega

theorem status_of_own_mem {s : State} (hI : MutexInv s) {pc : Pc} (hm : pc ∈ s.agents)
    (ho : own pc = true) : s.mb.schedulerStatus = MailboxRunning := by
  have h1 := countP_erase_add own hm
  rw [if_pos ho] at h1
  unfold MutexInv running at hI
  by_contra hne
  rw [if_neg hne] at hI
  omega

theorem next_mutex {cfg : Config} {s s' : State} {a : Action} (hI : MutexInv s)
    (h : next cfg s a = some s') : MutexInv s' := by
  cases a with
  | PostUserMessage m =>
    simp only [next, Option.some.injEq] at h
    subst h
    simpa [MutexInv, own] using hI
  | PostSystemMessage m =>
    simp only [next, Option.some.injEq] at h
    subst h
    simpa [MutexInv, own] using hI
  | RegisterHandlers hu hs =>
    simp only [next, Option.some.injEq] at h
    subst h
    simpa [MutexInv, RegisterHandlers, running] using hI
  | run pc =>
    simp only [next] at h
    split at h
    · rename_i hm
      split at h
      · rename_i mb nxt evs he
        simp only [Option.some.injEq] at h
        subst h
        have h1 := exec_own he (status_of_own_mem hI hm)
        have h2 := countP_erase_add own hm
        unfold MutexInv at hI ⊢
        simp only [List.countP_append]
        omega
      · cases h
    · cases h

theorem covers_innerHead (mb : Mailbox) (t : Int) (i : Nat) : Covers mb (innerHead t i) := by
  unfold innerHead; split <;> simp [Covers]

theorem covers_loopStart (mb : Mailbox) (cfg : Config) : Covers mb (loopStart cfg) := by
  cases cfg
  · exact covers_innerHead _ _ _
  · simp [loopStart, Covers]

theorem covers_of_own {mb : Mailbox} {pc : Pc} (ho : own pc = true)
    (hf : mb.hasMoreMessages = MailboxHasMoreMessages) : Covers mb pc := by
  cases pc <;> simp_all [own, Covers]

theorem popMany_not_ok {b : Int} {q : List Msg} (hb : 1 ≤ b) (h : (PopMany b q).2.2 = false) :
    q = [] := by
  simp only [PopMany, decide_eq_false_iff_not, not_lt, Nat.le_zero] at h
  have : 1 ≤ b.toNat := by omega
  have h2 : q.length = 0 := by omega
  exact List.length_eq_zero.mp h2

theorem valid_batching {b : Int} (hb : 1 ≤ b) : (Config.batching b PopMany).Valid :=
  fun _ h => popMany_not_ok hb h

theorem pop_eq_none {q : List Msg} : Pop q = none ↔ q = [] := by
  cases q <;> simp [Pop]

theorem covers_idle {mb : Mailbox} {c : Pc} (h : Covers mb c) :
    Covers { mb with schedulerStatus := MailboxIdle } c := by
  cases c <;> simp_all [Covers]

set_option maxHeartbeats 2000000 in
theorem exec_cover {cfg : Config} {pc : Pc} {mb mb' : Mailbox} {nxt : List Pc} {evs : List Event}
    (hv : cfg.Valid) (h : exec cfg pc mb = Outcome.ok mb' nxt evs) (hp : Pending mb') :
    (∃ p ∈ nxt, Covers mb' p) ∨
    ((pc = Pc.postStore ∨ pc = Pc.exitStore) ∧ mb'.hasMoreMessages = MailboxHasMoreMessages ∧
      mb'.schedulerStatus = MailboxRunning) ∨
    (Pending mb ∧ ¬ Covers mb pc ∧ ∀ c, Covers mb c → Covers mb' c) := by
  have hs : mb.schedulerStatus = MailboxIdle ∨ mb.schedulerStatus = MailboxRunning := by
    cases mb.schedulerStatus <;> simp
  have hf : mb.hasMoreMessages = MailboxHasNoMessages ∨
      mb.hasMoreMessages = MailboxHasMoreMessages := by
    cases mb.hasMoreMessages <;> simp
  cases pc <;> cases cfg <;> simp only [exec] at h
  all_goals (try split at h)
  all_goals (try cases h)
  all_goals (try simp only [List.mem_singleton, exists_eq_left, covers_innerHead, covers_loopStart])
  all_goals (try (simp_all [Covers, Pending, scheduleStore, scheduleCas, Pop, Config.Valid]; done))
  all_goals (rcases hs with hs | hs <;> rcases hf with hf | hf)
  all_goals first
    | (simp_all [Covers, Pending, scheduleStore, scheduleCas, pop_eq_none, Config.Valid]; done)
    | exact Or.inr (Or.inr ⟨by simpa [Pending] using hp, by simp [Covers, hf],
        fun c hc => covers_idle hc⟩)
    | (rename_i hx
       have hq := hv _ (by simpa using hx)
       exact Or.inr (Or.inr ⟨hp, by simp [Covers, hq, hf], fun c hc => hc⟩))

theorem covers_register {mb : Mailbox} {hu : UserArg → Bool} {hs : Msg → Bool} {c : Pc}
    (h : Covers mb c) : Covers (RegisterHandlers mb hu hs) c := by
  cases c <;> exact h

theorem exists_own_of_running {s : State} (hI : MutexInv s)
    (hr : s.mb.schedulerStatus = MailboxRunning) : ∃ o ∈ s.agents, own o = true := by
  unfold MutexInv running at hI
  rw [if_pos hr] at hI
  have : 0 < s.agents.countP own := by omega
  exact List.countP_pos_iff.mp this

theorem next_cover {cfg : Config} (hv : cfg.Valid) {s s' : State} {a : Action}
    (hM : MutexInv s) (hC : CoverInv s) (h : next cfg s a = some s') : CoverInv s' := by
  have hM' := next_mutex hM h
  cases a with
  | PostUserMessage m =>
    simp only [next, Option.some.injEq] at h
    subst h
    intro hp
    obtain ⟨c, hc, hcov⟩ := hC hp
    exact ⟨c, List.mem_cons_of_mem _ hc, hcov⟩
  | PostSystemMessage m =>
    simp only [next, Option.some.injEq] at h
    subst h
    intro hp
    obtain ⟨c, hc, hcov⟩ := hC hp
    exact ⟨c, List.mem_cons_of_mem _ hc, hcov⟩
  | RegisterHandlers hu hs =>
    simp only [next, Option.some.injEq] at h
    subst h
    intro hp
    obtain ⟨c, hc, hcov⟩ := hC hp
    exact ⟨c, hc, covers_register hcov⟩
  | run pc =>
    simp only [next] at h
    split at h
    · rename_i hm
      split at h
      · rename_i mb nxt evs he
        simp only [Option.some.injEq] at h
        subst h
        intro hp
        rcases exec_cover hv he hp with ⟨p, hpn, hcov⟩ | ⟨hst, hfl, hrun⟩ | ⟨hpend, hnc, hmono⟩
        · exact ⟨p, List.mem_append_left _ hpn, hcov⟩
        · obtain ⟨o, ho, hown⟩ := exists_own_of_running hM' hrun
          exact ⟨o, ho, covers_of_own hown hfl⟩
        · obtain ⟨c, hc, hcov⟩ := hC hpend
          have hne : c ≠ pc := by
            intro heq
            subst heq
            exact hnc hcov
          exact ⟨c, List.mem_append_right _ ((List.mem_erase_of_ne hne).mpr hc), hmono c hcov⟩
      · cases h
    · cases h

theorem reachable_inv {cfg : Config} (hv : cfg.Valid) {s0 s : State}
    (hM : MutexInv s0) (hC : CoverInv s0)
    (h : ReachableFrom cfg s0 s) : MutexInv s ∧ CoverInv s := by
  induction h with
  | refl => exact ⟨hM, hC⟩
  | step a _ hn ih => exact ⟨next_mutex ih.1 hn, next_cover hv ih.1 ih.2 hn⟩

theorem reachable_mutex {cfg : Config} {s0 s : State} (hM : MutexInv s0)
    (h : ReachableFrom cfg s0 s) : MutexInv s := by
  induction h with
  | refl => exact hM
  | step a _ hn ih => exact next_mutex ih hn

theorem initial_mutex : MutexInv initial := by
  simp [MutexInv, initial, running, freshMailbox]

theorem initial_cover : CoverInv initial := by
  intro hp
  simp [Pending, initial, freshMailbox] at hp

/-! ## Sequential execution of a drain task -/

theorem runHead_step {cfg : Config} {n : Nat} {mb mb' : Mailbox} {pc : Pc} {rest nxt : List Pc}
    {tr evs : List Event} (h : exec cfg pc mb = Outcome.ok mb' nxt evs) :
    runHead cfg (n + 1) ⟨mb, pc :: rest, tr⟩ = runHead cfg n ⟨mb', nxt ++ rest, tr ++ evs⟩ := by
  simp [runHead, h]

theorem runHead_add (cfg : Config) : ∀ (a b : Nat) (s : State),
    runHead cfg (a + b) s = runHead cfg b (runHead cfg a s) := by
  intro a
  induction a with
  | zero => intro b s; simp [runHead]
  | succ a ih =>
    intro b s
    have e : a + 1 + b = (a + b) + 1 := by omega
    rw [e]
    rcases s with ⟨mb, agents, tr⟩
    cases agents with
    | nil => cases b <;> simp [runHead]
    | cons pc rest =>
      cases hx : exec cfg pc mb with
      | ok mb' nxt evs => simp [runHead, hx, ih]
      | blocked => cases b <;> simp [runHead, hx]
      | fault f => cases b <;> simp [runHead, hx]

theorem innerHead_lt {t i : Nat} (h : i < t) : innerHead (t : Int) i = Pc.sysLen i := by
  simp [innerHead, h]

theorem innerHead_ge {t i : Nat} (h : ¬ i < t) : innerHead (t : Int) i = Pc.gosched false := by
  simp [innerHead, h]

theorem usrEvents_cons (m : Msg) (U : List Msg) :
    usrEvents (m :: U) = Event.userInvoke (UserArg.one m) :: usrEvents U := rfl

theorem sysEvents_cons (m : Msg) (S : List Msg) :
    sysEvents (m :: S) = Event.systemInvoke m :: sysEvents S := rfl

theorem bounded_user_phase (t uc sc : Nat) (st : SchedulerStatus) (fl : PendingFlag)
    (hu : UserArg → Bool) (hs : Msg → Bool) (hok : ∀ a, hu a = true) :
    ∀ (U : List Msg) (i : Nat) (tr : List Event), i < t →
      ∃ n, runHead (Config.bounded t uc sc) n
          ⟨⟨U, [], st, fl, some hu, some hs⟩, [Pc.sysLen i], tr⟩ =
        ⟨⟨[], [], st, fl, some hu, some hs⟩, [Pc.storeIdle],
          tr ++ yieldTrace t i (usrEvents U)⟩ := by
  intro U
  induction U with
  | nil =>
    intro i tr _
    refine ⟨3, ?_⟩
    simp [runHead, exec, yieldTrace, usrEvents]
  | cons m U ih =>
    intro i tr hi
    by_cases h1 : i + 1 < t
    · obtain ⟨n, hn⟩ := ih (i + 1) (tr ++ [Event.userInvoke (UserArg.one m)]) h1
      refine ⟨n + 4, ?_⟩
      simp only [runHead, exec, invoke, hok, innerHead_lt h1, yieldTrace, usrEvents_cons, h1,
        List.length_cons, Nat.zero_lt_succ, List.length_nil, lt_self_iff_false, if_true,
        if_false, List.nil_append, List.singleton_append, List.append_nil]
      rw [hn]
      simp [usrEvents, sysEvents]
    · obtain ⟨n, hn⟩ := ih 0 (tr ++ [Event.userInvoke (UserArg.one m)] ++ [Event.Gosched])
        (by omega)
      refine ⟨n + 5, ?_⟩
      simp only [runHead, exec, invoke, hok, innerHead_ge h1, yieldTrace, usrEvents_cons, h1,
        List.length_cons, Nat.zero_lt_succ, List.length_nil, lt_self_iff_false, if_true,
        if_false, List.nil_append, List.singleton_append, List.append_nil,
        innerHead_lt (show 0 < t by omega)]
      simp only [Bool.false_eq_true, if_false, innerHead_lt (show 0 < t by omega),
        List.singleton_append]
      rw [hn]
      simp [usrEvents, sysEvents]

theorem bounded_system_phase (t uc sc : Nat) (st : SchedulerStatus) (fl : PendingFlag)
    (hu : UserArg → Bool) (hs : Msg → Bool) (hok : ∀ a, hu a = true) (hoks : ∀ m, hs m = true)
    (U : List Msg) :
    ∀ (S : List Msg) (i : Nat) (tr : List Event), i < t →
      ∃ n, runHead (Config.bounded t uc sc) n
          ⟨⟨U, S, st, fl, some hu, some hs⟩, [Pc.sysLen i], tr⟩ =
        ⟨⟨[], [], st, fl, some hu, some hs⟩, [Pc.storeIdle],
          tr ++ yieldTrace t i (sysEvents S ++ usrEvents U)⟩ := by
  intro S
  induction S with
  | nil =>
    intro i tr hi
    simpa [sysEvents] using bounded_user_phase t uc sc st fl hu hs hok U i tr hi
  | cons m S ih =>
    intro i tr hi
    by_cases h1 : i + 1 < t
    · obtain ⟨n, hn⟩ := ih (i + 1) (tr ++ [Event.systemInvoke m]) h1
      refine ⟨n + 3, ?_⟩
      simp only [runHead, exec, invoke, hoks, innerHead_lt h1, yieldTrace, sysEvents_cons, h1,
        List.length_cons, Nat.zero_lt_succ, List.length_nil, lt_self_iff_false, if_true,
        if_false, List.nil_append, List.singleton_append, List.append_nil, List.cons_append]
      rw [hn]
      simp [usrEvents, sysEvents]
    · obtain ⟨n, hn⟩ := ih 0 (tr ++ [Event.systemInvoke m] ++ [Event.Gosched]) (by omega)
      refine ⟨n + 4, ?_⟩
      simp only [runHead, exec, invoke, hoks, innerHead_ge h1, yieldTrace, sysEvents_cons, h1,
        List.length_cons, Nat.zero_lt_succ, List.length_nil, lt_self_iff_false, if_true,
        if_false, List.nil_append, List.singleton_append, List.append_nil, List.cons_append]
      simp only [Bool.false_eq_true, if_false, innerHead_lt (show 0 < t by omega),
        List.singleton_append]
      rw [hn]
      simp [usrEvents, sysEvents]

theorem bounded_drain (t uc sc : Nat) (ht : 1 ≤ t) (st : SchedulerStatus) (fl : PendingFlag)
    (hu : UserArg → Bool) (hs : Msg → Bool) (hok : ∀ a, hu a = true) (hoks : ∀ m, hs m = true)
    (S U : List Msg) :
    ∃ n, runHead (Config.bounded t uc sc) n (drainStart ⟨U, S, st, fl, some hu, some hs⟩) =
      ⟨⟨[], [], MailboxIdle, MailboxHasNoMessages, some hu, some hs⟩, [],
        yieldTrace t 0 (sysEvents S ++ usrEvents U)⟩ := by
  obtain ⟨n, hn⟩ := bounded_system_phase t uc sc st MailboxHasNoMessages hu hs hok hoks U S 0 []
    (by omega)
  refine ⟨(n + 2) + 1, ?_⟩
  rw [drainStart, runHead_step (show exec (Config.bounded t uc sc) Pc.entry _ = _ from rfl)]
  simp only [loopStart, innerHead_lt (show 0 < t by omega), List.append_nil]
  rw [runHead_add, hn]
  simp [runHead, exec]

theorem bounded_drain_int (t : Int) (uc sc : Nat) (ht : 1 ≤ t) (st : SchedulerStatus)
    (fl : PendingFlag) (hu : UserArg → Bool) (hs : Msg → Bool) (hok : ∀ a, hu a = true)
    (hoks : ∀ m, hs m = true) (S U : List Msg) :
    ∃ n, runHead (Config.bounded t uc sc) n (drainStart ⟨U, S, st, fl, some hu, some hs⟩) =
      ⟨⟨[], [], MailboxIdle, MailboxHasNoMessages, some hu, some hs⟩, [],
        yieldTrace t.toNat 0 (sysEvents S ++ usrEvents U)⟩ := by
  obtain ⟨m, rfl⟩ := Int.eq_ofNat_of_zero_le (show 0 ≤ t by omega)
  have hm : 1 ≤ m := by omega
  simpa using bounded_drain m uc sc hm st fl hu hs hok hoks S U

theorem isInvoke_sysEvents_usrEvents (S U : List Msg) :
    ∀ e ∈ sysEvents S ++ usrEvents U, e.isInvoke = true := by
  intro e he
  simp only [sysEvents, usrEvents, List.mem_append, List.mem_map] at he
  rcases he with ⟨m, _, rfl⟩ | ⟨m, _, rfl⟩ <;> rfl

theorem invocations_yieldTrace (t : Nat) :
    ∀ (M : List Event) (i : Nat), (∀ e ∈ M, e.isInvoke = true) →
      invocations (yieldTrace t i M) = M := by
  intro M
  induction M with
  | nil => intro i _; simp [yieldTrace, invocations, Event.isInvoke]
  | cons e M ih =>
    intro i h
    have he : e.isInvoke = true := h e (List.mem_cons_self _ _)
    have hM : ∀ x ∈ M, x.isInvoke = true := fun x hx => h x (List.mem_cons_of_mem _ hx)
    have h1 := ih (i + 1) hM
    have h0 := ih 0 hM
    unfold invocations at h1 h0 ⊢
    by_cases hlt : i + 1 < t
    · simp [yieldTrace, hlt, he, h1]
    · simp only [yieldTrace, hlt, if_false]
      rw [List.filter_cons_of_pos he, List.filter_cons_of_neg (by simp [Event.isInvoke]), h0]

theorem yields_yieldTrace (t : Nat) :
    ∀ (M : List Event) (i : Nat), (∀ e ∈ M, e.isInvoke = true) → i < t →
      yields (yieldTrace t i M) = (i + M.length) / t + 1 := by
  intro M
  induction M with
  | nil =>
    intro i _ hi
    simp [yieldTrace, yields, Nat.div_eq_of_lt hi]
  | cons e M ih =>
    intro i h hi
    have he : e.isInvoke = true := h e (List.mem_cons_self _ _)
    have hne : e ≠ Event.Gosched := by
      intro hc; rw [hc] at he; simp [Event.isInvoke] at he
    have hM : ∀ x ∈ M, x.isInvoke = true := fun x hx => h x (List.mem_cons_of_mem _ hx)
    unfold yields at ih ⊢
    by_cases hlt : i + 1 < t
    · have h1 := ih (i + 1) hM hlt
      simp only [yieldTrace, hlt, if_true, List.length_cons]
      rw [List.count_cons_of_ne hne.symm, h1]
      congr 2
      omega
    · have h0 := ih 0 hM (by omega)
      have hit : i + 1 = t := by omega
      simp only [yieldTrace, hlt, if_false, List.length_cons]
      rw [List.count_cons_of_ne hne.symm, List.count_cons_self, h0]
      have : i + (M.length + 1) = M.length + t := by omega
      rw [this, Nat.add_div_right _ (by omega : 0 < t)]
      simp

theorem bursts_yieldTrace (t : Nat) :
    ∀ (M : List Event) (i : Nat), (∀ e ∈ M, e.isInvoke = true) → i < t →
      ∀ b ∈ bursts i (yieldTrace t i M), b ≤ t := by
  intro M
  induction M with
  | nil =>
    intro i _ hi b hb
    simp [yieldTrace, bursts] at hb
    omega
  | cons e M ih =>
    intro i h hi b hb
    have he : e.isInvoke = true := h e (List.mem_cons_self _ _)
    have hM : ∀ x ∈ M, x.isInvoke = true := fun x hx => h x (List.mem_cons_of_mem _ hx)
    have hstep : ∀ rest, bursts i (e :: rest) = bursts (i + 1) rest := by
      intro rest
      cases e <;> simp_all [bursts, Event.isInvoke]
    by_cases hlt : i + 1 < t
    · simp only [yieldTrace, hlt, if_true, hstep] at hb
      exact ih (i + 1) hM hlt b hb
    · simp only [yieldTrace, hlt, if_false, hstep, bursts, List.mem_cons] at hb
      rcases hb with rfl | hb
      · omega
      · exact ih 0 hM (by omega) b hb

theorem ceil_step (b len : Nat) (hb : 1 ≤ b) (hl : 1 ≤ len) :
    (len - min b len + b - 1) / b + 1 = (len + b - 1) / b := by
  by_cases h : len ≤ b
  · have h1 : min b len = len := by omega
    have h2 : (len - min b len + b - 1) / b = 0 := by
      rw [h1]; exact Nat.div_eq_of_lt (by omega)
    have h3 : (len + b - 1) / b = 1 := by
      have : len + b - 1 = (len - 1) + b := by omega
      rw [this, Nat.add_div_right _ (by omega : 0 < b), Nat.div_eq_of_lt (by omega)]
    omega
  · have h1 : min b len = b := by omega
    rw [h1]
    have : len + b - 1 = (len - b + b - 1) + b := by omega
    rw [this, Nat.add_div_right _ (by omega : 0 < b)]

theorem batching_user_phase (b : Nat) (hb : 1 ≤ b) (st : SchedulerStatus) (fl : PendingFlag)
    (hu : UserArg → Bool) (hs : Msg → Bool) (hok : ∀ a, hu a = true) :
    ∀ (k : Nat) (U : List Msg) (tr : List Event), U.length ≤ k →
      ∃ (n : Nat) (bs : List (List Msg)),
        runHead (Config.batching b PopMany) n ⟨⟨U, [], st, fl, some hu, some hs⟩, [Pc.sysPop], tr⟩ =
          ⟨⟨[], [], st, fl, some hu, some hs⟩, [Pc.storeIdle], tr ++ batchTrace bs⟩ ∧
        bs.flatten = U ∧ (∀ c ∈ bs, 1 ≤ c.length ∧ c.length ≤ b) ∧
        bs.length = (U.length + b - 1) / b := by
  intro k
  induction k with
  | zero =>
    intro U tr hU
    have hnil : U = [] := List.length_eq_zero.mp (by omega)
    subst hnil
    refine ⟨2, [], ?_, rfl, by simp, ?_⟩
    · simp [runHead, exec, Pop, PopMany, batchTrace]
    · simp
      exact (Nat.div_eq_of_lt (by omega)).symm
  | succ k ih =>
    intro U tr hU
    cases U with
    | nil =>
      refine ⟨2, [], ?_, rfl, by simp, ?_⟩
      · simp [runHead, exec, Pop, PopMany, batchTrace]
      · simp
        exact (Nat.div_eq_of_lt (by omega)).symm
    | cons m U =>
      have hmin : 1 ≤ min b (m :: U).length := by
        simp only [List.length_cons]; omega
      have hlen : ((m :: U).drop (min b (m :: U).length)).length ≤ k := by
        simp only [List.length_drop, List.length_cons] at hU ⊢
        simp only [List.length_cons] at hmin
        omega
      obtain ⟨n, bs, hn, hj, hc, hl⟩ := ih ((m :: U).drop (min b (m :: U).length))
        (tr ++ [Event.userInvoke (UserArg.many ((m :: U).take (min b (m :: U).length)))] ++
          [Event.Gosched]) hlen
      refine ⟨n + 4, (m :: U).take (min b (m :: U).length) :: bs, ?_, ?_, ?_, ?_⟩
      · have hok2 : (PopMany (b : Int) (m :: U)).2.2 = true := by
          simp only [PopMany, Int.toNat_ofNat, decide_eq_true_eq]
          omega
        have e1 : (PopMany (b : Int) (m :: U)).1 = (m :: U).take (min b (m :: U).length) := by
          simp [PopMany]
        have e2 : (PopMany (b : Int) (m :: U)).2.1 = (m :: U).drop (min b (m :: U).length) := by
          simp [PopMany]
        simp only [runHead, exec, Pop, hok2, if_true, e1, e2, invoke, hok, List.nil_append,
          List.singleton_append, List.append_nil]
        rw [hn]
        simp [batchTrace]
      · simp [hj]
      · intro c hcm
        rcases List.mem_cons.mp hcm with rfl | hcm
        · simp only [List.length_take]
          constructor
          · simp only [List.length_cons] at hmin ⊢; omega
          · simp only [List.length_cons]; omega
        · exact hc c hcm
      · simp only [List.length_cons, hl, List.length_drop]
        have := ceil_step b (U.length + 1) hb (by omega)
        simpa using this

theorem batching_system_phase (b : Nat) (hb : 1 ≤ b) (st : SchedulerStatus) (fl : PendingFlag)
    (hu : UserArg → Bool) (hs : Msg → Bool) (hok : ∀ a, hu a = true) (hoks : ∀ m, hs m = true)
    (U : List Msg) :
    ∀ (S : List Msg) (tr : List Event),
      ∃ (n : Nat) (bs : List (List Msg)),
        runHead (Config.batching b PopMany) n ⟨⟨U, S, st, fl, some hu, some hs⟩, [Pc.sysPop], tr⟩ =
          ⟨⟨[], [], st, fl, some hu, some hs⟩, [Pc.storeIdle],
            tr ++ (sysBatchTrace S ++ batchTrace bs)⟩ ∧
        bs.flatten = U ∧ (∀ c ∈ bs, 1 ≤ c.length ∧ c.length ≤ b) ∧
        bs.length = (U.length + b - 1) / b := by
  intro S
  induction S with
  | nil =>
    intro tr
    simpa [sysBatchTrace] using batching_user_phase b hb st fl hu hs hok U.length U tr le_rfl
  | cons m S ih =>
    intro tr
    obtain ⟨n, bs, hn, hrest⟩ := ih (tr ++ [Event.systemInvoke m] ++ [Event.Gosched])
    refine ⟨n + 3, bs, ?_, hrest⟩
    simp only [runHead, exec, Pop, invoke, hoks, if_true, List.nil_append,
      List.singleton_append, List.append_nil]
    rw [hn]
    simp [sysBatchTrace]

theorem batching_drain (b : Nat) (hb : 1 ≤ b) (st : SchedulerStatus) (fl : PendingFlag)
    (hu : UserArg → Bool) (hs : Msg → Bool) (hok : ∀ a, hu a = true) (hoks : ∀ m, hs m = true)
    (S U : List Msg) :
    ∃ (n : Nat) (bs : List (List Msg)),
      runHead (Config.batching b PopMany) n (drainStart ⟨U, S, st, fl, some hu, some hs⟩) =
        ⟨⟨[], [], MailboxIdle, MailboxHasNoMessages, some hu, some hs⟩, [],
          sysBatchTrace S ++ batchTrace bs⟩ ∧
      bs.flatten = U ∧ (∀ c ∈ bs, 1 ≤ c.length ∧ c.length ≤ b) ∧
      bs.length = (U.length + b - 1) / b := by
  obtain ⟨n, bs, hn, hrest⟩ :=
    batching_system_phase b hb st MailboxHasNoMessages hu hs hok hoks U S []
  refine ⟨(n + 2) + 1, bs, ?_, hrest⟩
  rw [drainStart, runHead_step (show exec (Config.batching b PopMany) Pc.entry _ = _ from rfl)]
  simp only [loopStart, List.append_nil]
  rw [runHead_add, hn]
  simp [runHead, exec]

theorem batching_drain_int (b : Int) (hb : 1 ≤ b) (st : SchedulerStatus) (fl : PendingFlag)
    (hu : UserArg → Bool) (hs : Msg → Bool) (hok : ∀ a, hu a = true) (hoks : ∀ m, hs m = true)
    (S U : List Msg) :
    ∃ (n : Nat) (bs : List (List Msg)),
      runHead (Config.batching b PopMany) n (drainStart ⟨U, S, st, fl, some hu, some hs⟩) =
        ⟨⟨[], [], MailboxIdle, MailboxHasNoMessages, some hu, some hs⟩, [],
          sysBatchTrace S ++ batchTrace bs⟩ ∧
      bs.flatten = U ∧ (∀ c ∈ bs, 1 ≤ c.length ∧ c.length ≤ b.toNat) ∧
      bs.length = (U.length + b.toNat - 1) / b.toNat := by
  obtain ⟨m, rfl⟩ := Int.eq_ofNat_of_zero_le (show 0 ≤ b by omega)
  have hm : 1 ≤ m := by omega
  simpa using batching_drain m hm st fl hu hs hok hoks S U

theorem invocations_batch (S : List Msg) (bs : List (List Msg)) :
    invocations (sysBatchTrace S ++ batchTrace bs) = sysEvents S ++ batchEvents bs := by
  induction S with
  | nil =>
    induction bs with
    | nil => rfl
    | cons c bs ih =>
      simp only [sysBatchTrace, List.nil_append, sysEvents, List.map_nil] at ih ⊢
      simp only [batchTrace, invocations, batchEvents, List.map_cons] at ih ⊢
      rw [List.filter_cons_of_pos (by rfl), List.filter_cons_of_neg (by simp [Event.isInvoke]), ih]
  | cons m S ih =>
    simp only [sysBatchTrace, invocations, sysEvents, List.map_cons, List.cons_append] at ih ⊢
    rw [List.filter_cons_of_pos (by rfl), List.filter_cons_of_neg (by simp [Event.isInvoke]), ih]

/-! ## The claims -/

theorem reachableFrom_trans {cfg : Config} {s0 s1 s2 : State} (h1 : ReachableFrom cfg s0 s1)
    (h2 : ReachableFrom cfg s1 s2) : ReachableFrom cfg s0 s2 := by
  induction h2 with
  | refl => exact h1
  | step a _ hn ih => exact ReachableFrom.step a ih hn

theorem reachableFrom_runActions {cfg : Config} :
    ∀ (acts : List Action) (s s' : State), runActions cfg acts s = some s' →
      ReachableFrom cfg s s' := by
  intro acts
  induction acts with
  | nil =>
    intro s s' h
    simp only [runActions, Option.some.injEq] at h
    subst h
    exact ReachableFrom.refl
  | cons a rest ih =>
    intro s s' h
    simp only [runActions] at h
    split at h
    · rename_i s1 hs1
      exact reachableFrom_trans (ReachableFrom.step a ReachableFrom.refl hs1) (ih _ _ h)
    · cases h

theorem reachableFrom_runHead (cfg : Config) :
    ∀ (n : Nat) (s : State), ReachableFrom cfg s (runHead cfg n s) := by
  intro n
  induction n with
  | zero => intro s; exact ReachableFrom.refl
  | succ n ih =>
    intro s
    rcases s with ⟨mb, agents, tr⟩
    cases agents with
    | nil => simp only [runHead]; exact ReachableFrom.refl
    | cons pc rest =>
      cases hx : exec cfg pc mb with
      | ok mb' nxt evs =>
        have hstep : next cfg ⟨mb, pc :: rest, tr⟩ (Action.run pc) =
            some ⟨mb', nxt ++ rest, tr ++ evs⟩ := by
          simp [next, hx]
        rw [runHead_step hx]
        exact reachableFrom_trans (ReachableFrom.step _ ReachableFrom.refl hstep) (ih _)
      | blocked => simp only [runHead, hx]; exact ReachableFrom.refl
      | fault f => simp only [runHead, hx]; exact ReachableFrom.refl

theorem countP_own_le_one {s : State} (h : MutexInv s) : s.agents.countP own ≤ 1 := by
  unfold MutexInv running at h
  split at h <;> omega

/-- C3. `schedule`, run without interruption from any mailbox state, sets the pending flag to
`MailboxHasMoreMessages`, launches a drain task exactly when the status was `MailboxIdle`
before the call (and then one task), leaves the status at `MailboxRunning`, and changes neither
queue nor handler binding; in both variants the two atomic actions of a `schedule` call are its
store and its compare-and-swap. -/
theorem schedule_spec (mb : Mailbox) :
    (schedule mb).1.hasMoreMessages = MailboxHasMoreMessages ∧
    ((schedule mb).2 = if mb.schedulerStatus = MailboxIdle then [Pc.entry] else []) ∧
    ((schedule mb).2 ≠ [] ↔ mb.schedulerStatus = MailboxIdle) ∧
    (schedule mb).1.schedulerStatus = MailboxRunning ∧
    (schedule mb).1.userMailbox = mb.userMailbox ∧
    (schedule mb).1.systemMailbox = mb.systemMailbox ∧
    (schedule mb).1.userInvoke = mb.userInvoke ∧
    (schedule mb).1.systemInvoke = mb.systemInvoke ∧
    (∀ cfg : Config,
      exec cfg Pc.postStore mb = Outcome.ok (scheduleStore mb) [Pc.postCas] [] ∧
      exec cfg Pc.postCas (scheduleStore mb) = Outcome.ok (schedule mb).1 (schedule mb).2 [] ∧
      exec cfg Pc.exitStore mb = Outcome.ok (scheduleStore mb) [Pc.exitCas] [] ∧
      exec cfg Pc.exitCas (scheduleStore mb) = Outcome.ok (schedule mb).1 (schedule mb).2 []) := by
  have hs : mb.schedulerStatus = MailboxIdle ∨ mb.schedulerStatus = MailboxRunning := by
    cases mb.schedulerStatus <;> simp
  refine ⟨?_, ?_, ?_, ?_, ?_, ?_, ?_, ?_, ?_⟩
  all_goals (rcases hs with hs | hs <;> simp [schedule, scheduleCas, scheduleStore, exec, hs])

/-- C1. Mutual exclusion: in every state reachable from the factory state, for either variant
and whatever the posters do, at most one drain task is between its entry store and its store of
`MailboxIdle`, hence at most one stands at a handler call; the status is `MailboxRunning`
exactly when such a task (or a launched task that has not started) exists. -/
theorem mutual_exclusion (cfg : Config) (s : State) (h : Reachable cfg s) :
    s.agents.countP inLoop ≤ 1 ∧ s.agents.countP invoking ≤ 1 ∧
    s.agents.countP own = (if s.mb.schedulerStatus = MailboxRunning then 1 else 0) := by
  have hM : MutexInv s := reachable_mutex initial_mutex h
  have h1 := countP_own_le_one hM
  have h2 : s.agents.countP inLoop ≤ s.agents.countP own := by
    apply List.countP_mono_left
    intro pc _ hpc
    simp only [inLoop, Bool.and_eq_true] at hpc
    exact hpc.1
  have h3 : s.agents.countP invoking ≤ s.agents.countP own := by
    apply List.countP_mono_left
    intro pc _ hpc
    cases pc <;> simp_all [invoking, own]
  exact ⟨by omega, by omega, hM⟩

/-- Witness for C1: two posters have raced; one launched the drain task, which is at a handler
call, the other is between its store and its compare-and-swap. -/
theorem mutual_exclusion_witness :
    Reachable (Config.batching 3 PopMany)
      ⟨⟨[], [], MailboxRunning, MailboxHasMoreMessages, some (fun _ => true),
        some (fun _ => true)⟩, [Pc.postCas, Pc.batchUsrInvoke [1, 2]], []⟩ ∧
    ([Pc.postCas, Pc.batchUsrInvoke [1, 2]].countP inLoop ≤ 1 ∧
      [Pc.postCas, Pc.batchUsrInvoke [1, 2]].countP invoking ≤ 1 ∧
      [Pc.postCas, Pc.batchUsrInvoke [1, 2]].countP own =
        (if MailboxRunning = MailboxRunning then 1 else 0)) :=
  have hr : Reachable (Config.batching 3 PopMany)
      ⟨⟨[], [], MailboxRunning, MailboxHasMoreMessages, some (fun _ => true),
        some (fun _ => true)⟩, [Pc.postCas, Pc.batchUsrInvoke [1, 2]], []⟩ :=
    reachableFrom_runActions
      [Action.RegisterHandlers (fun _ => true) (fun _ => true),
       Action.PostUserMessage 1, Action.run (Pc.putUser 1), Action.run Pc.postStore,
       Action.PostUserMessage 2, Action.run (Pc.putUser 2),
       Action.run Pc.postCas, Action.run Pc.entry, Action.run Pc.sysPop,
       Action.run Pc.usrPopMany, Action.run Pc.postStore] _ _ rfl
  ⟨hr, mutual_exclusion _ _ hr⟩

/-- C2, counterexample. A batching mailbox built by `NewUnboundedBatchingMailbox` with batch
size 0, on the queue whose `PopMany` is modelled as in claim C5: `PostUserMessage(7)` runs to
its end and so does the drain task it launches (`PopMany(0)` removes nothing and reports
`false`, the loop ends, the swap reads `MailboxHasNoMessages`); the state reached has no post
call in progress and no drain task, and message 7 is still in the user channel.  So the
quiescence property does not hold for every configuration. -/
theorem stranded_message_counterexample :
    Reachable (NewUnboundedBatchingMailbox PopMany 0)
      ⟨⟨[7], [], MailboxIdle, MailboxHasNoMessages, none, none⟩, [], []⟩ ∧
    ¬ (∀ s : State, Reachable (NewUnboundedBatchingMailbox PopMany 0) s → s.agents = [] →
      s.mb.systemMailbox = [] ∧ s.mb.userMailbox = []) :=
  have hr : Reachable (NewUnboundedBatchingMailbox PopMany 0)
      ⟨⟨[7], [], MailboxIdle, MailboxHasNoMessages, none, none⟩, [], []⟩ :=
    reachableFrom_runActions
      [Action.PostUserMessage 7, Action.run (Pc.putUser 7), Action.run Pc.postStore,
       Action.run Pc.postCas, Action.run Pc.entry, Action.run Pc.sysPop,
       Action.run Pc.usrPopMany, Action.run Pc.storeIdle, Action.run Pc.swapFlag] _ _ rfl
  ⟨hr, fun hall => List.cons_ne_nil 7 [] (hall _ hr rfl).2⟩

/-- C2, amended. No stranded message: for every bounded configuration, and for every batching
configuration on a queue whose `PopMany`, called with the configured batch size, reports
`false` only when the user channel is empty (as `processMessages` takes it; with `PopMany` as
modelled in claim C5 these are the batch sizes of at least 1), every state reachable from the
factory state in which no post call is in progress and no drain task exists has both channels
empty.  In particular, when a post runs its `schedule` while the drain task is past its last
empty check and before its store of `MailboxIdle`, the exiting task's swap reads
`MailboxHasMoreMessages` and its `schedule` call launches a new drain task. -/
theorem no_stranded_message (cfg : Config) (hv : cfg.Valid) :
    (∀ s : State, Reachable cfg s → s.agents = [] →
      s.mb.systemMailbox = [] ∧ s.mb.userMailbox = []) ∧
    (∀ (mb : Mailbox) (rest : List Pc) (tr : List Event),
      mb.schedulerStatus = MailboxRunning →
      runHead cfg 3 ⟨mb, Pc.postStore :: Pc.storeIdle :: rest, tr⟩ =
        ⟨{ mb with hasMoreMessages := MailboxHasMoreMessages, schedulerStatus := MailboxIdle },
          Pc.swapFlag :: rest, tr⟩ ∧
      runHead cfg 6 ⟨mb, Pc.postStore :: Pc.storeIdle :: rest, tr⟩ =
        ⟨{ mb with hasMoreMessages := MailboxHasMoreMessages,
                   schedulerStatus := MailboxRunning },
          Pc.entry :: rest, tr⟩) := by
  constructor
  · intro s h hq
    have hC : CoverInv s := (reachable_inv hv initial_mutex initial_cover h).2
    by_contra hne
    have hp : Pending s.mb := by
      unfold Pending
      by_contra hnp
      apply hne
      push_neg at hnp
      exact hnp
    obtain ⟨pc, hpc, _⟩ := hC hp
    rw [hq] at hpc
    cases hpc
  · intro mb rest tr hrun
    constructor <;>
      simp [runHead, exec, scheduleStore, scheduleCas, hrun]

/-- Witness for C2 amended: one user message is posted to a batching mailbox and drained; afterwards
nobody is in flight and both channels are empty. -/
theorem no_stranded_message_witness :
    (Config.batching 3 PopMany).Valid ∧
    Reachable (Config.batching 3 PopMany)
      ⟨⟨[], [], MailboxIdle, MailboxHasNoMessages, some (fun _ => true),
        some (fun _ => true)⟩, [], [Event.userInvoke (UserArg.many [7]), Event.Gosched]⟩ ∧
    (([] : List Msg) = [] ∧ ([] : List Msg) = []) ∧
    runHead (Config.batching 3 PopMany) 6
        ⟨⟨[], [5], MailboxRunning, MailboxHasNoMessages, none, none⟩,
          [Pc.postStore, Pc.storeIdle], []⟩ =
      ⟨⟨[], [5], MailboxRunning, MailboxHasMoreMessages, none, none⟩, [Pc.entry], []⟩ :=
  have hv : (Config.batching 3 PopMany).Valid := valid_batching (by decide)
  have hr : Reachable (Config.batching 3 PopMany)
      ⟨⟨[], [], MailboxIdle, MailboxHasNoMessages, some (fun _ => true),
        some (fun _ => true)⟩, [], [Event.userInvoke (UserArg.many [7]), Event.Gosched]⟩ :=
    reachableFrom_runActions
      [Action.RegisterHandlers (fun _ => true) (fun _ => true),
       Action.PostUserMessage 7, Action.run (Pc.putUser 7), Action.run Pc.postStore,
       Action.run Pc.postCas, Action.run Pc.entry, Action.run Pc.sysPop,
       Action.run Pc.usrPopMany, Action.run (Pc.batchUsrInvoke [7]),
       Action.run Pc.batchGosched, Action.run Pc.sysPop, Action.run Pc.usrPopMany,
       Action.run Pc.storeIdle, Action.run Pc.swapFlag] _ _ rfl
  ⟨hv, hr, (no_stranded_message (Config.batching 3 PopMany) hv).1 _ hr rfl,
    ((no_stranded_message (Config.batching 3 PopMany) hv).2
      ⟨[], [5], MailboxRunning, MailboxHasNoMessages, none, none⟩ [] [] rfl).2⟩

theorem runHead_done (cfg : Config) (n : Nat) {s : State} (h : s.agents = []) :
    runHead cfg n s = s := by
  rcases s with ⟨mb, agents, tr⟩
  simp only at h
  subst h
  cases n <;> simp [runHead]

theorem runHead_stable (cfg : Config) {n : Nat} {s : State}
    (h : (runHead cfg n s).agents = []) (k : Nat) (hk : n ≤ k) :
    runHead cfg k s = runHead cfg n s := by
  obtain ⟨j, rfl⟩ := Nat.exists_eq_add_of_le hk
  rw [runHead_add, runHead_done cfg j h]

/-- C4. Priority and FIFO in the bounded drain: for every throughput at least 1, system
messages `S` and user messages `U` queued when the drain task starts, handlers bound and
returning, and nobody posting meanwhile, the task terminates (from `n` steps on the state is
the final state `s`, in which no agent is left); the handler invocations are exactly
`systemInvoke` on the messages of `S` in queue order followed by `userInvoke` on the messages
of `U` in queue order, one invocation per queued message; at the end both channels are empty
and the status is `MailboxIdle`. -/
theorem bounded_priority_fifo (t : Int) (uc sc : Nat) (ht : 1 ≤ t) (S U : List Msg)
    (st : SchedulerStatus) (fl : PendingFlag) (hu : UserArg → Bool) (hs : Msg → Bool)
    (hok : ∀ a, hu a = true) (hoks : ∀ m, hs m = true) :
    ∃ (n : Nat) (s : State),
      (∀ k, n ≤ k →
        runHead (Config.bounded t uc sc) k (drainStart ⟨U, S, st, fl, some hu, some hs⟩) = s) ∧
      s.agents = [] ∧
      invocations s.trace =
        S.map Event.systemInvoke ++ U.map (fun m => Event.userInvoke (UserArg.one m)) ∧
      (invocations s.trace).length = S.length + U.length ∧
      s.mb.systemMailbox = [] ∧ s.mb.userMailbox = [] ∧
      s.mb.schedulerStatus = MailboxIdle := by
  obtain ⟨n, hn⟩ := bounded_drain_int t uc sc ht st fl hu hs hok hoks S U
  have hinv := invocations_yieldTrace t.toNat (sysEvents S ++ usrEvents U) 0
    (isInvoke_sysEvents_usrEvents S U)
  refine ⟨n, ⟨⟨[], [], MailboxIdle, MailboxHasNoMessages, some hu, some hs⟩, [],
    yieldTrace t.toNat 0 (sysEvents S ++ usrEvents U)⟩, fun k hk => ?_, rfl, hinv, ?_, rfl, rfl,
    rfl⟩
  · rw [runHead_stable _ (by rw [hn]) k hk, hn]
  · simp only [hinv]
    simp [sysEvents, usrEvents]

/-- Witness for C4: `U1`, `U2` queued, then `Sys1`; throughput 10: the handlers see `Sys1`,
`U1`, `U2`. -/
theorem bounded_priority_fifo_witness :
    ((1 : Int) ≤ 10 ∧ (∀ a : UserArg, (fun _ => true) a = true) ∧
      (∀ m : Msg, (fun _ => true) m = true)) ∧
    (∃ (n : Nat) (s : State),
      (∀ k, n ≤ k →
        runHead (Config.bounded 10 16 128) k (drainStart ⟨[1, 2], [100],
          MailboxRunning, MailboxHasMoreMessages, some (fun _ => true),
          some (fun _ => true)⟩) = s) ∧
      s.agents = [] ∧
      invocations s.trace =
        [100].map Event.systemInvoke ++
          [1, 2].map (fun m => Event.userInvoke (UserArg.one m)) ∧
      (invocations s.trace).length = [100].length + [1, 2].length ∧
      s.mb.systemMailbox = [] ∧ s.mb.userMailbox = [] ∧
      s.mb.schedulerStatus = MailboxIdle) ∧
    invocations (runHead (Config.bounded 10 16 128) 14 (drainStart ⟨[1, 2], [100],
        MailboxRunning, MailboxHasMoreMessages, some (fun _ => true),
          some (fun _ => true)⟩)).trace =
      [Event.systemInvoke 100, Event.userInvoke (UserArg.one 1),
        Event.userInvoke (UserArg.one 2)] :=
  ⟨⟨by decide, fun _ => rfl, fun _ => rfl⟩,
    bounded_priority_fifo 10 16 128 (by decide) [100] [1, 2] MailboxRunning
      MailboxHasMoreMessages (fun _ => true) (fun _ => true) (fun _ => rfl) (fun _ => rfl),
    by decide⟩

theorem drainStart_mutex (mb : Mailbox) (h : mb.schedulerStatus = MailboxRunning) :
    MutexInv (drainStart mb) := by
  simp [MutexInv, drainStart, running, h, own]

theorem ceil_bounds (b len : Nat) (hb : 1 ≤ b) :
    len ≤ (len + b - 1) / b * b ∧ (len + b - 1) / b * b < len + b := by
  have h1 := Nat.div_add_mod (len + b - 1) b
  have h2 := Nat.mod_lt (len + b - 1) (show 0 < b by omega)
  rw [Nat.mul_comm] at h1
  constructor <;> omega

/-- C9. Cooperative yield count in the bounded drain: for every throughput `t` at least 1 and
`n` messages queued when the drain task starts (system plus user), nobody posting meanwhile,
the task terminates having called `runtime.Gosched` exactly `n / t + 1` times, with at most `t`
handler invocations in every stretch between yields; and at every step at which the task
stands at the yield the status is `MailboxRunning`. -/
theorem bounded_yield_count (t : Int) (uc sc : Nat) (ht : 1 ≤ t) (S U : List Msg)
    (fl : PendingFlag)
    (hu : UserArg → Bool) (hs : Msg → Bool)
    (hok : ∀ a, hu a = true) (hoks : ∀ m, hs m = true) :
    (∃ (n : Nat) (s : State),
      (∀ k, n ≤ k →
        runHead (Config.bounded t uc sc) k
          (drainStart ⟨U, S, MailboxRunning, fl, some hu, some hs⟩) = s) ∧
      s.agents = [] ∧
      yields s.trace = (S.length + U.length) / t.toNat + 1 ∧
      ∀ b ∈ bursts 0 s.trace, b ≤ t.toNat) ∧
    (∀ (k : Nat) (d : Bool),
      Pc.gosched d ∈ (runHead (Config.bounded t uc sc) k
        (drainStart ⟨U, S, MailboxRunning, fl, some hu, some hs⟩)).agents →
      (runHead (Config.bounded t uc sc) k
        (drainStart ⟨U, S, MailboxRunning, fl, some hu, some hs⟩)).mb.schedulerStatus =
          MailboxRunning) := by
  constructor
  · obtain ⟨n, hn⟩ := bounded_drain_int t uc sc ht MailboxRunning fl hu hs hok hoks S U
    have hall := isInvoke_sysEvents_usrEvents S U
    have ht' : 0 < t.toNat := by omega
    refine ⟨n, ⟨⟨[], [], MailboxIdle, MailboxHasNoMessages, some hu, some hs⟩, [],
      yieldTrace t.toNat 0 (sysEvents S ++ usrEvents U)⟩, fun k hk => ?_, rfl, ?_, ?_⟩
    · rw [runHead_stable _ (by rw [hn]) k hk, hn]
    · have := yields_yieldTrace t.toNat (sysEvents S ++ usrEvents U) 0 hall ht'
      simpa [sysEvents, usrEvents] using this
    · exact bursts_yieldTrace t.toNat (sysEvents S ++ usrEvents U) 0 hall ht'
  · intro k d hmem
    have hM := reachable_mutex (drainStart_mutex _ rfl)
      (reachableFrom_runHead (Config.bounded t uc sc) k
        (drainStart ⟨U, S, MailboxRunning, fl, some hu, some hs⟩))
    exact status_of_own_mem hM hmem rfl

/-- Witness for C9: throughput 2, one system and three user messages: three yields, bursts of
2, 2 and 0 invocations. -/
theorem bounded_yield_count_witness :
    ((1 : Int) ≤ 2 ∧ (∀ a : UserArg, (fun _ => true) a = true) ∧
      (∀ m : Msg, (fun _ => true) m = true)) ∧
    ((∃ (n : Nat) (s : State),
      (∀ k, n ≤ k →
        runHead (Config.bounded 2 16 128) k
          (drainStart ⟨[1, 2, 3], [100], MailboxRunning, MailboxHasMoreMessages,
            some (fun _ => true), some (fun _ => true)⟩) = s) ∧
      s.agents = [] ∧
      yields s.trace = ([100].length + [1, 2, 3].length) / (2 : Int).toNat + 1 ∧
      ∀ b ∈ bursts 0 s.trace, b ≤ (2 : Int).toNat) ∧
    (∀ (k : Nat) (d : Bool),
      Pc.gosched d ∈ (runHead (Config.bounded 2 16 128) k
        (drainStart ⟨[1, 2, 3], [100], MailboxRunning, MailboxHasMoreMessages,
            some (fun _ => true), some (fun _ => true)⟩)).agents →
      (runHead (Config.bounded 2 16 128) k
        (drainStart ⟨[1, 2, 3], [100], MailboxRunning, MailboxHasMoreMessages,
            some (fun _ => true), some (fun _ => true)⟩)).mb.schedulerStatus =
          MailboxRunning)) ∧
    (runHead (Config.bounded 2 16 128) 40
        (drainStart ⟨[1, 2, 3], [100], MailboxRunning, MailboxHasMoreMessages,
            some (fun _ => true), some (fun _ => true)⟩)).trace =
      [Event.systemInvoke 100, Event.userInvoke (UserArg.one 1), Event.Gosched,
        Event.userInvoke (UserArg.one 2), Event.userInvoke (UserArg.one 3), Event.Gosched,
        Event.Gosched] :=
  ⟨⟨by decide, fun _ => rfl, fun _ => rfl⟩,
    bounded_yield_count 2 16 128 (by decide) [100] [1, 2, 3] MailboxHasMoreMessages
      (fun _ => true) (fun _ => true) (fun _ => rfl) (fun _ => rfl),
    by decide⟩

/-- C5. Batching: for every batch size `b` at least 1 and user messages `U` queued when the
drain task starts, with no system message and nobody posting meanwhile, the task terminates and
its handler invocations are `userInvoke` on the batches `bs`, in order, where `bs` has
`ceil (N / b)` members (`N` the length of `U`; the number `(N + b - 1) / b` is the one `k`
with `N ≤ k * b < N + b`), every batch holds at least 1 and at most `b` messages, and the
batches concatenated give `U`. -/
theorem batching_batches (b : Int) (hb : 1 ≤ b) (U : List Msg)
    (st : SchedulerStatus) (fl : PendingFlag) (hu : UserArg → Bool) (hs : Msg → Bool)
    (hok : ∀ a, hu a = true) (hoks : ∀ m, hs m = true) :
    ∃ (n : Nat) (s : State) (bs : List (List Msg)),
      (∀ k, n ≤ k →
        runHead (Config.batching b PopMany) k (drainStart ⟨U, [], st, fl, some hu, some hs⟩) = s) ∧
      s.agents = [] ∧
      invocations s.trace = bs.map (fun c => Event.userInvoke (UserArg.many c)) ∧
      bs.length = (U.length + b.toNat - 1) / b.toNat ∧
      (U.length ≤ bs.length * b.toNat ∧ bs.length * b.toNat < U.length + b.toNat) ∧
      (∀ c ∈ bs, 1 ≤ c.length ∧ c.length ≤ b.toNat) ∧
      bs.flatten = U := by
  obtain ⟨n, bs, hn, hj, hc, hl⟩ := batching_drain_int b hb st fl hu hs hok hoks [] U
  refine ⟨n, ⟨⟨[], [], MailboxIdle, MailboxHasNoMessages, some hu, some hs⟩, [],
    sysBatchTrace [] ++ batchTrace bs⟩, bs, fun k hk => ?_, rfl, ?_, hl, ?_, hc, hj⟩
  · rw [runHead_stable _ (by rw [hn]) k hk, hn]
  · simpa [sysEvents, batchEvents] using invocations_batch [] bs
  · rw [hl]; exact ceil_bounds b.toNat U.length (by omega)

/-- Witness for C5: batch size 3 and `U1..U5`: the handler sees `[U1,U2,U3]`, then
`[U4,U5]`. -/
theorem batching_batches_witness :
    ((1 : Int) ≤ 3 ∧ (∀ a : UserArg, (fun _ => true) a = true) ∧
      (∀ m : Msg, (fun _ => true) m = true)) ∧
    (∃ (n : Nat) (s : State) (bs : List (List Msg)),
      (∀ k, n ≤ k →
        runHead (Config.batching 3 PopMany) k (drainStart ⟨[1, 2, 3, 4, 5], [], MailboxRunning,
          MailboxHasMoreMessages, some (fun _ => true), some (fun _ => true)⟩) = s) ∧
      s.agents = [] ∧
      invocations s.trace = bs.map (fun c => Event.userInvoke (UserArg.many c)) ∧
      bs.length = ([1, 2, 3, 4, 5].length + (3 : Int).toNat - 1) / (3 : Int).toNat ∧
      ([1, 2, 3, 4, 5].length ≤ bs.length * (3 : Int).toNat ∧
        bs.length * (3 : Int).toNat < [1, 2, 3, 4, 5].length + (3 : Int).toNat) ∧
      (∀ c ∈ bs, 1 ≤ c.length ∧ c.length ≤ (3 : Int).toNat) ∧
      bs.flatten = [1, 2, 3, 4, 5]) ∧
    invocations (runHead (Config.batching 3 PopMany) 20 (drainStart ⟨[1, 2, 3, 4, 5], [],
        MailboxRunning, MailboxHasMoreMessages, some (fun _ => true),
        some (fun _ => true)⟩)).trace =
      [Event.userInvoke (UserArg.many [1, 2, 3]), Event.userInvoke (UserArg.many [4, 5])] :=
  ⟨⟨by decide, fun _ => rfl, fun _ => rfl⟩,
    batching_batches 3 (by decide) [1, 2, 3, 4, 5] MailboxRunning MailboxHasMoreMessages
      (fun _ => true) (fun _ => true) (fun _ => rfl) (fun _ => rfl),
    by decide⟩

/-- C8. Priority in the batching drain: for every batch size `b` at least 1, system messages
`S` and user messages `U` queued when the drain task starts and nobody posting meanwhile, the
task terminates; every message of `S` gets its own `systemInvoke` call, in queue order, before
the first `userInvoke` batch, and the number of handler invocations is the length of `S` plus
`ceil (N / b)` for `N` the length of `U`. -/
theorem batching_priority (b : Int) (hb : 1 ≤ b) (S U : List Msg)
    (st : SchedulerStatus) (fl : PendingFlag) (hu : UserArg → Bool) (hs : Msg → Bool)
    (hok : ∀ a, hu a = true) (hoks : ∀ m, hs m = true) :
    ∃ (n : Nat) (s : State) (bs : List (List Msg)),
      (∀ k, n ≤ k →
        runHead (Config.batching b PopMany) k (drainStart ⟨U, S, st, fl, some hu, some hs⟩) = s) ∧
      s.agents = [] ∧
      invocations s.trace =
        S.map Event.systemInvoke ++ bs.map (fun c => Event.userInvoke (UserArg.many c)) ∧
      bs.flatten = U ∧
      (∀ c ∈ bs, 1 ≤ c.length ∧ c.length ≤ b.toNat) ∧
      (invocations s.trace).length = S.length + (U.length + b.toNat - 1) / b.toNat ∧
      (U.length ≤ (U.length + b.toNat - 1) / b.toNat * b.toNat ∧
        (U.length + b.toNat - 1) / b.toNat * b.toNat < U.length + b.toNat) := by
  obtain ⟨n, bs, hn, hj, hc, hl⟩ := batching_drain_int b hb st fl hu hs hok hoks S U
  have hinv := invocations_batch S bs
  refine ⟨n, ⟨⟨[], [], MailboxIdle, MailboxHasNoMessages, some hu, some hs⟩, [],
    sysBatchTrace S ++ batchTrace bs⟩, bs, fun k hk => ?_, rfl, ?_, hj, hc, ?_,
    ceil_bounds b.toNat U.length (by omega)⟩
  · rw [runHead_stable _ (by rw [hn]) k hk, hn]
  · simpa [sysEvents, batchEvents] using hinv
  · simp only [hinv]
    simp [sysEvents, batchEvents, hl]

/-- Witness for C8: batch size 2, two system and three user messages. -/
theorem batching_priority_witness :
    ((1 : Int) ≤ 2 ∧ (∀ a : UserArg, (fun _ => true) a = true) ∧
      (∀ m : Msg, (fun _ => true) m = true)) ∧
    (∃ (n : Nat) (s : State) (bs : List (List Msg)),
      (∀ k, n ≤ k →
        runHead (Config.batching 2 PopMany) k (drainStart ⟨[1, 2, 3], [100, 101],
          MailboxRunning, MailboxHasMoreMessages, some (fun _ => true),
          some (fun _ => true)⟩) = s) ∧
      s.agents = [] ∧
      invocations s.trace =
        [100, 101].map Event.systemInvoke ++
          bs.map (fun c => Event.userInvoke (UserArg.many c)) ∧
      bs.flatten = [1, 2, 3] ∧
      (∀ c ∈ bs, 1 ≤ c.length ∧ c.length ≤ (2 : Int).toNat) ∧
      (invocations s.trace).length =
        [100, 101].length + ([1, 2, 3].length + (2 : Int).toNat - 1) / (2 : Int).toNat ∧
      ([1, 2, 3].length ≤
          ([1, 2, 3].length + (2 : Int).toNat - 1) / (2 : Int).toNat * (2 : Int).toNat ∧
        ([1, 2, 3].length + (2 : Int).toNat - 1) / (2 : Int).toNat * (2 : Int).toNat <
          [1, 2, 3].length + (2 : Int).toNat)) ∧
    invocations (runHead (Config.batching 2 PopMany) 30 (drainStart ⟨[1, 2, 3], [100, 101],
        MailboxRunning, MailboxHasMoreMessages, some (fun _ => true),
        some (fun _ => true)⟩)).trace =
      [Event.systemInvoke 100, Event.systemInvoke 101,
        Event.userInvoke (UserArg.many [1, 2]), Event.userInvoke (UserArg.many [3])] :=
  ⟨⟨by decide, fun _ => rfl, fun _ => rfl⟩,
    batching_priority 2 (by decide) [100, 101] [1, 2, 3] MailboxRunning MailboxHasMoreMessages
      (fun _ => true) (fun _ => true) (fun _ => rfl) (fun _ => rfl),
    by decide⟩

theorem innerHead_nonpos {t : Int} (h : t ≤ 0) (i : Nat) : innerHead t i = Pc.gosched false := by
  have : ¬ ((i : Int) < t) := by omega
  simp [innerHead, this]

theorem exec_stalled {t : Int} {uc sc : Nat} (ht : t ≤ 0) {pc : Pc} {mb mb' : Mailbox}
    {nxt : List Pc} {evs : List Event} (hp : stalled pc = true)
    (h : exec (Config.bounded t uc sc) pc mb = Outcome.ok mb' nxt evs) :
    (∀ p ∈ nxt, stalled p = true) ∧ invocations evs = [] := by
  have hs : mb.schedulerStatus = MailboxIdle ∨ mb.schedulerStatus = MailboxRunning := by
    cases mb.schedulerStatus <;> simp
  cases pc <;> simp only [stalled, Bool.false_eq_true] at hp <;> simp only [exec] at h
  all_goals (try split at h)
  all_goals (try cases h)
  all_goals (rcases hs with hs | hs)
  all_goals simp_all [stalled, invocations, scheduleCas, scheduleStore, loopStart,
    innerHead_nonpos ht, Event.isInvoke]

theorem next_stall {t : Int} {uc sc : Nat} (ht : t ≤ 0) {s s' : State} {a : Action}
    (hI : StallInv s) (h : next (Config.bounded t uc sc) s a = some s') : StallInv s' := by
  cases a with
  | PostUserMessage m =>
    simp only [next, Option.some.injEq] at h
    subst h
    refine ⟨?_, hI.2⟩
    intro pc hpc
    rcases List.mem_cons.mp hpc with rfl | hpc
    · rfl
    · exact hI.1 pc hpc
  | PostSystemMessage m =>
    simp only [next, Option.some.injEq] at h
    subst h
    refine ⟨?_, hI.2⟩
    intro pc hpc
    rcases List.mem_cons.mp hpc with rfl | hpc
    · rfl
    · exact hI.1 pc hpc
  | RegisterHandlers hu hs =>
    simp only [next, Option.some.injEq] at h
    subst h
    exact hI
  | run pc =>
    simp only [next] at h
    split at h
    · rename_i hm
      split at h
      · rename_i mb nxt evs he
        simp only [Option.some.injEq] at h
        subst h
        obtain ⟨h1, h2⟩ := exec_stalled ht (hI.1 pc hm) he
        refine ⟨?_, ?_⟩
        · intro p hp
          rcases List.mem_append.mp hp with hp | hp
          · exact h1 p hp
          · exact hI.1 p (List.mem_of_mem_erase hp)
        · have h3 := hI.2
          unfold invocations at h2 h3 ⊢
          simp only [List.filter_append, h2, h3, List.append_nil]
      · cases h
    · cases h

/-- C10. Non-positive throughput: for a bounded mailbox built by `NewBoundedMailbox` with
throughput at most 0, a drain task never leaves its outer loop: one step after its launch and
after every further number `k` of outer iterations it stands at the yield with `done` false,
the trace holds `k` yields and no handler invocation, and the mailbox is the one it started on
with only the pending flag cleared (no message removed, status as at the launch, which is
`MailboxRunning`); and in no state reachable from the factory state, whatever is posted, has a
handler been invoked. -/
theorem nonpositive_throughput (ringCapacity : Nat → Nat) (throughput size : Int)
    (h : throughput ≤ 0) :
    (∀ (mb : Mailbox) (k : Nat),
      runHead (NewBoundedMailbox ringCapacity throughput size) (k + 1) (drainStart mb) =
        ⟨{ mb with hasMoreMessages := MailboxHasNoMessages }, [Pc.gosched false],
          List.replicate k Event.Gosched⟩) ∧
    (∀ s : State, Reachable (NewBoundedMailbox ringCapacity throughput size) s →
      invocations s.trace = [] ∧ ∀ pc ∈ s.agents, invoking pc = false) := by
  constructor
  · intro mb k
    induction k with
    | zero =>
      simp [runHead, exec, NewBoundedMailbox, drainStart, loopStart, innerHead_nonpos h]
    | succ k ih =>
      rw [runHead_add, ih]
      simp [runHead, exec, NewBoundedMailbox, innerHead_nonpos h, List.replicate_succ']
  · intro s hr
    have hI : StallInv s := by
      unfold Reachable at hr
      induction hr with
      | refl => exact ⟨by simp [initial], by simp [initial, invocations]⟩
      | step a _ hn ih => exact next_stall h ih hn
    refine ⟨hI.2, ?_⟩
    intro pc hpc
    have := hI.1 pc hpc
    cases pc <;> simp_all [stalled, invoking]

/-- Witness for C10: throughput 0, one user message queued, five outer iterations. -/
theorem nonpositive_throughput_witness :
    ((0 : Int) ≤ 0) ∧
    runHead (NewBoundedMailbox id 0 8) (5 + 1)
        (drainStart ⟨[7], [], MailboxRunning, MailboxHasMoreMessages, none, none⟩) =
      ⟨⟨[7], [], MailboxRunning, MailboxHasNoMessages, none, none⟩, [Pc.gosched false],
        List.replicate 5 Event.Gosched⟩ :=
  ⟨le_refl 0, (nonpositive_throughput id 0 8 (le_refl 0)).1
    ⟨[7], [], MailboxRunning, MailboxHasMoreMessages, none, none⟩ 5⟩

theorem invoking_of_fault {cfg : Config} {pc : Pc} {mb : Mailbox} {f : Fault}
    (h : exec cfg pc mb = Outcome.fault f) : invoking pc = true := by
  cases pc <;> cases cfg <;> simp only [exec] at h
  all_goals (try split at h)
  all_goals (first | rfl | cases h)

theorem own_of_invoking {pc : Pc} (h : invoking pc = true) : own pc = true := by
  cases pc <;> simp_all [invoking, own]

/-- C6, counterexample. A bounded drain task whose `userInvoke` panics on the queued message:
the task faults at the call; however long the run continues the state stays the one at the
fault, its status is not `MailboxIdle`, the message has left the queue, and a `schedule` call
launches no drain task. -/
theorem handler_fault_counterexample :
    (runHead (Config.bounded 1 4 4) 4 (drainStart ⟨[7], [], MailboxRunning,
      MailboxHasMoreMessages, some (fun _ => false), some (fun _ => true)⟩)).agents =
        [Pc.usrInvoke 0 7] ∧
    exec (Config.bounded 1 4 4) (Pc.usrInvoke 0 7)
      (runHead (Config.bounded 1 4 4) 4 (drainStart ⟨[7], [], MailboxRunning,
        MailboxHasMoreMessages, some (fun _ => false), some (fun _ => true)⟩)).mb =
      Outcome.fault Fault.handlerPanic ∧
    runHead (Config.bounded 1 4 4) 100 (drainStart ⟨[7], [], MailboxRunning,
        MailboxHasMoreMessages, some (fun _ => false), some (fun _ => true)⟩) =
      runHead (Config.bounded 1 4 4) 4 (drainStart ⟨[7], [], MailboxRunning,
        MailboxHasMoreMessages, some (fun _ => false), some (fun _ => true)⟩) ∧
    ¬ ((runHead (Config.bounded 1 4 4) 100 (drainStart ⟨[7], [], MailboxRunning,
        MailboxHasMoreMessages, some (fun _ => false), some (fun _ => true)⟩)).mb.schedulerStatus
          = MailboxIdle) ∧
    (schedule (runHead (Config.bounded 1 4 4) 100 (drainStart ⟨[7], [], MailboxRunning,
        MailboxHasMoreMessages, some (fun _ => false), some (fun _ => true)⟩)).mb).2 = [] :=
  ⟨rfl, rfl, rfl, by decide, rfl⟩

/-- C6, amended. In every reachable state of either variant, when the next action of an agent
faults, that agent is a drain task at a call of `userInvoke` or `systemInvoke`, the status is
`MailboxRunning`, the task has no further step (so it neither stores `MailboxIdle` nor swaps
the pending flag), a `schedule` call on that memory launches no drain task and leaves the
status at `MailboxRunning`, and the status is `MailboxRunning` in every later state in which
the task still stands at that call. -/
theorem handler_fault_no_cleanup (cfg : Config) (s : State) (h : Reachable cfg s) (pc : Pc)
    (hm : pc ∈ s.agents) (f : Fault) (hf : exec cfg pc s.mb = Outcome.fault f) :
    invoking pc = true ∧
    s.mb.schedulerStatus = MailboxRunning ∧
    next cfg s (Action.run pc) = none ∧
    (schedule s.mb).2 = [] ∧
    (schedule s.mb).1.schedulerStatus = MailboxRunning ∧
    (∀ s' : State, ReachableFrom cfg s s' → pc ∈ s'.agents →
      s'.mb.schedulerStatus = MailboxRunning) := by
  have hinv := invoking_of_fault hf
  have hM : MutexInv s := reachable_mutex initial_mutex h
  have hrun := status_of_own_mem hM hm (own_of_invoking hinv)
  refine ⟨hinv, hrun, ?_, ?_, ?_, ?_⟩
  · simp [next, hm, hf]
  · simp [schedule, scheduleCas, scheduleStore, hrun]
  · simp [schedule, scheduleCas, scheduleStore, hrun]
  · intro s' hr hm'
    exact status_of_own_mem (reachable_mutex hM hr) hm' (own_of_invoking hinv)

/-- Witness for C6 amended: a batching mailbox whose system handler panics, reached from the
factory state by a registration, a post and the launched drain task. -/
theorem handler_fault_no_cleanup_witness :
    (Reachable (Config.batching 3 PopMany)
      ⟨⟨[], [], MailboxRunning, MailboxHasNoMessages, some (fun _ => true),
        some (fun _ => false)⟩, [Pc.batchSysInvoke 9], []⟩ ∧
      Pc.batchSysInvoke 9 ∈ [Pc.batchSysInvoke 9] ∧
      exec (Config.batching 3 PopMany) (Pc.batchSysInvoke 9)
        ⟨[], [], MailboxRunning, MailboxHasNoMessages, some (fun _ => true),
          some (fun _ => false)⟩ = Outcome.fault Fault.handlerPanic) ∧
    (invoking (Pc.batchSysInvoke 9) = true ∧
      MailboxRunning = MailboxRunning ∧
      next (Config.batching 3 PopMany)
        ⟨⟨[], [], MailboxRunning, MailboxHasNoMessages, some (fun _ => true),
          some (fun _ => false)⟩, [Pc.batchSysInvoke 9], []⟩
        (Action.run (Pc.batchSysInvoke 9)) = none ∧
      (schedule ⟨[], [], MailboxRunning, MailboxHasNoMessages, some (fun _ => true),
          some (fun _ => false)⟩).2 = [] ∧
      (schedule ⟨[], [], MailboxRunning, MailboxHasNoMessages, some (fun _ => true),
          some (fun _ => false)⟩).1.schedulerStatus = MailboxRunning) :=
  have hr : Reachable (Config.batching 3 PopMany)
      ⟨⟨[], [], MailboxRunning, MailboxHasNoMessages, some (fun _ => true),
        some (fun _ => false)⟩, [Pc.batchSysInvoke 9], []⟩ :=
    reachableFrom_runActions
      [Action.RegisterHandlers (fun _ => true) (fun _ => false),
       Action.PostSystemMessage 9, Action.run (Pc.putSystem 9), Action.run Pc.postStore,
       Action.run Pc.postCas, Action.run Pc.entry, Action.run Pc.sysPop] _ _ rfl
  have hc := handler_fault_no_cleanup (Config.batching 3 PopMany) _ hr (Pc.batchSysInvoke 9)
    (List.mem_singleton_self _) Fault.handlerPanic rfl
  ⟨⟨hr, List.mem_singleton_self _, rfl⟩, hc.1, hc.2.1, hc.2.2.1, hc.2.2.2.1, hc.2.2.2.2.1⟩

/-- C7, counterexample. A bounded mailbox fresh from its factory, no handler registered:
`PostUserMessage(7)` puts the message in the user channel (it is not rejected), and the drain
task it launches removes it again (it is not deferred) and arrives at the call of the unset
`userInvoke`, which faults as a call of a nil func; the run never gets past that point. -/
theorem post_unregistered_counterexample :
    next (Config.bounded 1 4 4) initial (Action.PostUserMessage 7) =
      some ⟨freshMailbox, [Pc.putUser 7], []⟩ ∧
    (runHead (Config.bounded 1 4 4) 1 ⟨freshMailbox, [Pc.putUser 7], []⟩).mb.userMailbox = [7] ∧
    (runHead (Config.bounded 1 4 4) 7 ⟨freshMailbox, [Pc.putUser 7], []⟩).agents =
      [Pc.usrInvoke 0 7] ∧
    (runHead (Config.bounded 1 4 4) 7 ⟨freshMailbox, [Pc.putUser 7], []⟩).mb.userMailbox = [] ∧
    exec (Config.bounded 1 4 4) (Pc.usrInvoke 0 7)
      (runHead (Config.bounded 1 4 4) 7 ⟨freshMailbox, [Pc.putUser 7], []⟩).mb =
      Outcome.fault Fault.nilHandler ∧
    runHead (Config.bounded 1 4 4) 100 ⟨freshMailbox, [Pc.putUser 7], []⟩ =
      runHead (Config.bounded 1 4 4) 7 ⟨freshMailbox, [Pc.putUser 7], []⟩ ∧
    (runHead (Config.bounded 1 4 4) 100 ⟨freshMailbox, [Pc.putUser 7], []⟩).trace = [] :=
  ⟨rfl, rfl, rfl, rfl, rfl, rfl, rfl⟩

/-- C7, amended. On a mailbox fresh from its factory, with no handler registered (throughput
and capacities at least 1 for the bounded variant, batch size at least 1 for the batching one),
a `PostUserMessage` or `PostSystemMessage` call puts the message in its channel and launches a
drain task; that task removes the message from the channel and arrives at the call of the unset
handler, whose execution is the fault of calling a nil func: the message is neither rejected
nor deferred. -/
theorem post_unregistered (m : Msg) :
    (∀ (t : Int) (uc sc : Nat), 1 ≤ t → 1 ≤ uc → 1 ≤ sc →
      (runHead (Config.bounded t uc sc) 7 ⟨freshMailbox, [Pc.putUser m], []⟩ =
          ⟨{ freshMailbox with schedulerStatus := MailboxRunning }, [Pc.usrInvoke 0 m], []⟩ ∧
        exec (Config.bounded t uc sc) (Pc.usrInvoke 0 m)
          { freshMailbox with schedulerStatus := MailboxRunning } =
            Outcome.fault Fault.nilHandler) ∧
      (runHead (Config.bounded t uc sc) 6 ⟨freshMailbox, [Pc.putSystem m], []⟩ =
          ⟨{ freshMailbox with schedulerStatus := MailboxRunning }, [Pc.sysInvoke 0 m], []⟩ ∧
        exec (Config.bounded t uc sc) (Pc.sysInvoke 0 m)
          { freshMailbox with schedulerStatus := MailboxRunning } =
            Outcome.fault Fault.nilHandler)) ∧
    (∀ b : Int, 1 ≤ b →
      (runHead (Config.batching b PopMany) 6 ⟨freshMailbox, [Pc.putUser m], []⟩ =
          ⟨{ freshMailbox with schedulerStatus := MailboxRunning },
            [Pc.batchUsrInvoke [m]], []⟩ ∧
        exec (Config.batching b PopMany) (Pc.batchUsrInvoke [m])
          { freshMailbox with schedulerStatus := MailboxRunning } =
            Outcome.fault Fault.nilHandler) ∧
      (runHead (Config.batching b PopMany) 5 ⟨freshMailbox, [Pc.putSystem m], []⟩ =
          ⟨{ freshMailbox with schedulerStatus := MailboxRunning },
            [Pc.batchSysInvoke m], []⟩ ∧
        exec (Config.batching b PopMany) (Pc.batchSysInvoke m)
          { freshMailbox with schedulerStatus := MailboxRunning } =
            Outcome.fault Fault.nilHandler)) := by
  constructor
  · intro t uc sc ht huc hsc
    have h0 : innerHead t 0 = Pc.sysLen 0 := by
      have : (0 : Int) < t := by omega
      simp [innerHead, this]
    have huc' : 0 < uc := by omega
    have hsc' : 0 < sc := by omega
    refine ⟨⟨?_, ?_⟩, ⟨?_, ?_⟩⟩
    · simp [runHead, exec, freshMailbox, scheduleStore, scheduleCas, loopStart, h0, huc']
    · simp [exec, freshMailbox, invoke]
    · simp [runHead, exec, freshMailbox, scheduleStore, scheduleCas, loopStart, h0, hsc']
    · simp [exec, freshMailbox, invoke]
  · intro b hb
    have hb' : 1 ≤ b.toNat := by omega
    have hmin : min b.toNat 1 = 1 := by omega
    refine ⟨⟨?_, ?_⟩, ⟨?_, ?_⟩⟩
    · simp [runHead, exec, freshMailbox, scheduleStore, scheduleCas, loopStart, Pop, PopMany,
        hmin]
    · simp [exec, freshMailbox, invoke]
    · simp [runHead, exec, freshMailbox, scheduleStore, scheduleCas, loopStart, Pop]
    · simp [exec, freshMailbox, invoke]

/-- Witness for C7 amended: throughput 1 and capacities 4 and 128, message 7. -/
theorem post_unregistered_witness :
    ((1 : Int) ≤ 1 ∧ 1 ≤ 4 ∧ 1 ≤ 128) ∧
    (runHead (Config.bounded 1 4 128) 7 ⟨freshMailbox, [Pc.putUser 7], []⟩ =
        ⟨{ freshMailbox with schedulerStatus := MailboxRunning }, [Pc.usrInvoke 0 7], []⟩ ∧
      exec (Config.bounded 1 4 128) (Pc.usrInvoke 0 7)
        { freshMailbox with schedulerStatus := MailboxRunning } =
          Outcome.fault Fault.nilHandler) :=
  ⟨⟨by decide, by decide, by decide⟩,
    ((post_unregistered 7).1 1 4 128 (by decide) (by decide) (by decide)).1⟩

end Gam
